import Mathlib

/-!
# DD1339 Go labs: a verification development

Shallow embeddings of

* `src/lab8/oracle.go`  (the oracle's `prophecy`),
* `src/lab8/bug2.go`    (`main` and `Print`, two goroutines and two unbuffered channels),
* `src/lab9/client.go`  (`Get`, `Read`, `MultiRead`).

Goroutines are embedded as explicit state machines: one constructor per blocking point of
the source, one action per statement that can complete, and a partial function
`step : Action → State → Option State` (`none` = the action is not enabled).
-/

set_option autoImplicit false

/-! ## lab8/oracle.go -/

namespace Oracle

/-- The constant `venue` (oracle.go:18). -/
def venue : String := "Delphi"

/-- The table `answers` (oracle.go:22-44): generic prophecies, answers to questions,
answers to statements. -/
def answers : List (List String) :=
  [ [ "I am afraid you lost me entirely in the sea of perplexity.",
      "The moon of two worlds apart is the only matter sustaining balance in the system.",
      "Lana says she is pretty when she cries. One may wonder what that implies." ],
    [ "That is definitely a question worth pursuing.",
      "I did not quite catch that.",
      "My uncle once said something similar. He was later diagnosed with hysteria.",
      "Yes, as a matter of fact, it is about the only logical thing around here.",
      "I do not believe so. Confabulating on such a matter as it might upset the King.",
      "That remains to be seen, however Bjorndir in Winterhold might know about it." ],
    [ "You think? It sounds like you are in over your head.",
      "Well, I am nothing more than a " ++ venue ++ ", I would not know anything about that.",
      "That is definitely a delicately profound way of expressing it.",
      "That I can agree with, it may have that kind of effect." ] ]

/-! The call `regexp.MatchString(pattern, s)` of the standard library, for the fragment
of Go's regular expressions that `prophecy` uses: `.`, literal characters, escaped
punctuation, and `*` after one of these. -/

/-- One character class. -/
inductive Atom where
  /-- The class `.`: any character but newline (the flag `s` is not set). -/
  | dot
  /-- A literal character, written as itself or, for punctuation, escaped as in `\?`. -/
  | lit (c : Char)
  deriving DecidableEq, Repr

/-- A token of a pattern. -/
inductive Tok where
  | atom (a : Atom)
  /-- The repetition operator `*`. -/
  | star
  deriving DecidableEq, Repr

/-- One factor of a pattern: a class, or a class under `*`. -/
inductive Item where
  | one (a : Atom)
  | many (a : Atom)
  deriving DecidableEq, Repr

/-- Characters that have a meaning of their own in a pattern unless escaped. -/
def isMeta (c : Char) : Bool :=
  c ∈ ['\\', '.', '+', '*', '?', '(', ')', '|', '[', ']', '\x7b', '\x7d', '^', '$']

/-- Splits a pattern into tokens; `none` for a pattern outside the fragment. -/
def lex : List Char → Option (List Tok)
  | [] => some []
  | c :: cs =>
      if c = '\\' then
        match cs with
        | [] => none
        | e :: rest => if isMeta e then (lex rest).map (Tok.atom (.lit e) :: ·) else none
      else if c = '.' then (lex cs).map (Tok.atom .dot :: ·)
      else if c = '*' then (lex cs).map (Tok.star :: ·)
      else if isMeta c then none
      else (lex cs).map (Tok.atom (.lit c) :: ·)

/-- Groups tokens into factors; `none` when `*` has nothing to repeat. -/
def factors : List Tok → Option (List Item)
  | [] => some []
  | .atom a :: .star :: ts => (factors ts).map (Item.many a :: ·)
  | .atom a :: ts => (factors ts).map (Item.one a :: ·)
  | .star :: _ => none

/-- The library call `regexp.Compile`, for the fragment. -/
def compile (pattern : String) : Option (List Item) :=
  (lex pattern.toList).bind factors

/-- Does the class accept the character? -/
def Atom.accepts : Atom → Char → Bool
  | .dot, c => c != '\n'
  | .lit a, c => c == a

/-- The factor `a*` followed by the rest of the pattern `k`: either the rest matches here,
or one more character is taken from the input by `a`. -/
def manyThen (p : Char → Bool) (k : List Char → Bool) : List Char → Bool
  | [] => k []
  | c :: cs => k (c :: cs) || (p c && manyThen p k cs)

/-- Does the pattern match at the very start of the input (a prefix of it)? -/
def matchHere : List Item → List Char → Bool
  | [], _ => true
  | .one a :: rest, s =>
      match s with
      | [] => false
      | c :: cs => a.accepts c && matchHere rest cs
  | .many a :: rest, s => manyThen a.accepts (matchHere rest) s

/-- Does the input contain a match: does the pattern match at some start position? -/
def matchFrom (items : List Item) : List Char → Bool
  | [] => matchHere items []
  | c :: cs => matchHere items (c :: cs) || matchFrom items cs

/-- The library call `regexp.MatchString(pattern, s)`, for patterns of the fragment: true
when `s` contains any match of the pattern (the search is not anchored). A pattern outside
the fragment gives false here, whatever Go does with it; `prophecy` passes only its two
constant patterns, both inside the fragment. -/
def MatchString (pattern : String) (s : String) : Bool :=
  match compile pattern with
  | some items => matchFrom items s.toList
  | none => false

/-- The local `patternQuestion` (oracle.go:111). -/
def patternQuestion : String := ".*\\?"

/-- The local `patternStatement` (oracle.go:112). -/
def patternStatement : String := ".*\\."

/-- The collection index `prophecy` computes (oracle.go:113-128): 0 by default, set to 1
when the question pattern matches, then set to 2 when the statement pattern matches. -/
def collection (question : String) : Nat :=
  let collection := 0
  let collection := if MatchString patternQuestion question then 1 else collection
  let collection := if MatchString patternStatement question then 2 else collection
  collection

/-- The message `prophecy` sends on the answer channel (oracle.go:130-135).
`pick` is the value returned by `rand.Intn(len(set))`, a number below `len(set)`;
`none` stands for an index out of range, which `rand.Intn` never produces. -/
def prophecy (question : String) (pick : Nat) : Option String :=
  match answers[collection question]? with
  | none => none
  | some set => set[pick]?

end Oracle

/-! ## lab8/bug2.go -/

namespace Bug2

/-- Where `main` stands (bug2.go:9-18). -/
inductive MainPC where
  /-- The `for` loop with counter `i`: the test `i <= 11`, then blocked in `ch <- i`. -/
  | loop (i : Nat)
  /-- About to run `close(ch)` (line 16). -/
  | closing
  /-- Blocked in `<-done` (line 17). -/
  | recvDone
  /-- The receive on `done` completed; `main` is about to return. -/
  | returning
  /-- The function `main` returned: the program has ended. -/
  | exited
  deriving DecidableEq, Repr

/-- Where the goroutine `Print` stands (bug2.go:22-28). -/
inductive PrintPC where
  /-- In `range ch` (line 23): waiting for the next value, or for the close. -/
  | recv
  /-- In `time.Sleep` with the received value `n` (line 24). -/
  | sleep (n : Nat)
  /-- About to run `fmt.Println(n)` (line 25). -/
  | print (n : Nat)
  /-- Blocked in `done <- true` (line 27). -/
  | sendDone
  /-- The send on `done` completed; `Print` is about to return. -/
  | returning
  /-- The function `Print` returned. -/
  | returned
  deriving DecidableEq, Repr

/-- The program state: both goroutines, whether `ch` is closed, and standard output. -/
structure State where
  main : MainPC
  printer : PrintPC
  closed : Bool
  out : List Nat
  deriving DecidableEq, Repr

/-- The statements that can complete. `ch` and `done` are unbuffered, so a send and the
matching receive complete together. -/
inductive Action where
  /-- The send `ch <- i` meets the receive of `range ch`. -/
  | send
  /-- The loop test `i <= 11` fails. -/
  | leaveLoop
  /-- The call `close(ch)`. -/
  | close
  /-- The call `time.Sleep` returns. -/
  | wake
  /-- The call `fmt.Println(n)`. -/
  | println
  /-- The loop `range ch` sees the channel closed (and, being unbuffered, empty). -/
  | rangeEnd
  /-- The send `done <- true` meets the receive `<-done`. -/
  | done
  /-- The function `main` returns and the program ends. -/
  | mainReturn
  /-- The function `Print` returns. -/
  | printReturn
  deriving DecidableEq, Repr

/-- The state after `go Print(ch, done)` and `i := 1`. -/
def init : State := ⟨.loop 1, .recv, false, []⟩

/-- One statement completes; `none` when it cannot. Once `main` has returned the program
has ended and nothing runs any more. -/
def step (a : Action) (s : State) : Option State :=
  if s.main = .exited then none else
  match a, s.main, s.printer with
  | .send, .loop i, .recv =>
      if i ≤ 11 then some { s with main := .loop (i + 1), printer := .sleep i } else none
  | .leaveLoop, .loop i, _ => if i ≤ 11 then none else some { s with main := .closing }
  | .close, .closing, _ => some { s with main := .recvDone, closed := true }
  | .wake, _, .sleep n => some { s with printer := .print n }
  | .println, _, .print n => some { s with printer := .recv, out := s.out ++ [n] }
  | .rangeEnd, _, .recv => if s.closed then some { s with printer := .sendDone } else none
  | .done, .recvDone, .sendDone => some { s with main := .returning, printer := .returning }
  | .mainReturn, .returning, _ => some { s with main := .exited }
  | .printReturn, _, .returning => some { s with printer := .returned }
  | _, _, _ => none

/-- An interleaving: the actions taken, in order. -/
def run : List Action → State → Option State
  | [], s => some s
  | a :: as, s => (step a s).bind (run as)

/-- Every action, to test whether a state can move at all. -/
def allActions : List Action :=
  [.send, .leaveLoop, .close, .wake, .println, .rangeEnd, .done, .mainReturn, .printReturn]

/-- Can some statement complete in this state? -/
def canStep (s : State) : Bool := allActions.any fun a => (step a s).isSome

/-- How many numbers `main` has handed over, read off its position. -/
def handed : MainPC → Nat
  | .loop i => i - 1
  | _ => 11

/-- How many received numbers `Print` holds and has not printed yet. -/
def held : PrintPC → Nat
  | .sleep _ => 1
  | .print _ => 1
  | _ => 0

/-- The invariant of the program: the output is `1, 2, ..., k` for its length `k`, every
number handed over is printed or held, and the two positions and the closed flag agree. -/
def Inv (s : State) : Prop :=
  s.out = List.range' 1 s.out.length ∧
  handed s.main = s.out.length + held s.printer ∧
  (match s.main with
    | .loop i => 1 ≤ i ∧ i ≤ 12 ∧ s.closed = false
    | .closing => s.closed = false
    | .recvDone => s.closed = true
    | .returning => s.closed = true ∧ (s.printer = .returning ∨ s.printer = .returned)
    | .exited => s.closed = true ∧ (s.printer = .returning ∨ s.printer = .returned)) ∧
  (match s.printer with
    | .recv => True
    | .sleep n => n = s.out.length + 1
    | .print n => n = s.out.length + 1
    | .sendDone => s.main = .recvDone
    | .returning => s.main = .returning ∨ s.main = .exited
    | .returned => s.main = .returning ∨ s.main = .exited)

/-- How many statements have completed, read off the state. -/
def progress (s : State) : Nat :=
  (match s.main with
    | .loop i => i - 1
    | .closing => 12
    | .recvDone => 13
    | .returning => 14
    | .exited => 15) +
  (match s.printer with
    | .recv => 2 * s.out.length
    | .sleep _ => 2 * s.out.length
    | .print _ => 2 * s.out.length + 1
    | .sendDone => 2 * s.out.length + 1
    | .returning => 2 * s.out.length + 1
    | .returned => 2 * s.out.length + 2)

/-- One complete interleaving: each number is handed over, slept on and printed in turn,
then `main` closes `ch`, `Print` leaves its loop and signals, and `main` returns. -/
def fullRun : List Action :=
  (List.replicate 11 [Action.send, .wake, .println]).flatten ++
    [.leaveLoop, .close, .rangeEnd, .done, .mainReturn]

end Bug2

/-! ## lab9/client.go : `Response` and `Get` -/

namespace Client

/-- The struct `Response` (client.go:30-33). -/
structure Response where
  Body : String
  StatusCode : Int
  deriving DecidableEq, Repr

/-- What the network gives one call of `Get`: the outcome of `http.Get(url)` and, when a
response arrived, of `ioutil.ReadAll(res.Body)`. -/
inductive Transport where
  /-- The call `http.Get` returned `err != nil`: no connection, no response. -/
  | connectError
  /-- A response with this status arrived, then `ioutil.ReadAll` failed with this error. -/
  | readError (status : Int) (err : String)
  /-- A response with this status arrived and its body was read in full. -/
  | ok (status : Int) (body : String)
  deriving DecidableEq, Repr

/-- The function `Get` (client.go:39-51). `Except.error msg` is `log.Fatalf`, which logs
`msg` and ends the whole process with `os.Exit(1)`: nothing is returned to the caller. -/
def Get (http : String → Transport) (url : String) : Except String Response :=
  match http url with
  | .connectError => .ok ⟨"", 0⟩                       -- return &Response{}
  | .readError _ err => .error ("ReadAll: " ++ err)     -- log.Fatalf("ReadAll: %v", err)
  | .ok status body => .ok ⟨body, status⟩               -- &Response{string(body), res.StatusCode}

end Client

/-! ## lab9/client.go : `Read` and `MultiRead`

Time is counted in nanoseconds (`time.Duration`) from the instant of the call, which is
instant 0. A goroutine is a state machine; a timer created by `time.After(timeout)` at
instant `now` has the deadline `now + timeout` (a timeout below zero fires at once) and its
case of a `select` can be taken from the deadline on.

Two semantics are given to each system. `step` lets time pass at any moment (a scheduler
with arbitrary slack): everything the real program can do is one of its runs, a goroutine
that is started or scheduled late being one whose statements complete late. `idealStep` is
the scheduler without slack: time passes only when no statement can complete, so every
statement completes at the first instant at which it can. Properties about which of two
events comes first, and about the instant of a return, are stated over `idealStep`;
properties of every interleaving are stated over `step`. -/

/-- Runs a list of actions with a partial step function. -/
def runWith {σ α : Type} (step : α → σ → Option σ) : List α → σ → Option σ
  | [], s => some s
  | a :: as, s => (step a s).bind (runWith step as)

namespace Client

/-- One server as the network presents it to `Get`. -/
structure Server where
  /-- Nanoseconds after which the call of `Get` completes; `none` when the server never
  responds and `Get` blocks forever. -/
  delay : Option Nat
  /-- What `http.Get` and `ioutil.ReadAll` produce when the call completes. -/
  transport : Transport

/-- The network: the server behind each url. -/
abbrev Net := String → Server

/-- The call `Get(url)` against the network. -/
def getOf (net : Net) (url : String) : Except String Response :=
  Get (fun u => (net u).transport) url

/-- The sentinel of `Read` (client.go:76): `&Response{"Gateway timeout\n", 504}`. -/
def gatewayTimeout : Response := ⟨"Gateway timeout\n", 504⟩

/-- The sentinel of `MultiRead` (client.go:100): `&Response{"Service unavailable\n", 503}`. -/
def serviceUnavailable : Response := ⟨"Service unavailable\n", 503⟩

/-- The deadline of `time.After(timeout)` created at instant `now`. -/
def deadlineAfter (now : Nat) (timeout : Int) : Nat := now + timeout.toNat

namespace Read

/-- The goroutine started by `Read` (client.go:65-72). -/
inductive Getter where
  /-- Evaluating `Get(url)`, the operand of the send case, before the `select` is entered. -/
  | inGet
  /-- In the `select`: offering `r` on `done`, with the timer created after `Get` returned. -/
  | offering (r : Response) (deadline : Nat)
  /-- The goroutine has ended (its send completed, or its timer case was taken). -/
  | exited
  /-- The call `Get` ran into `log.Fatalf`: the whole process has ended. -/
  | fatal (msg : String)
  deriving DecidableEq, Repr

/-- The body of `Read` itself (client.go:73-78). -/
inductive Reader where
  /-- In the `select`: receiving on `done`, or the timer with this deadline. -/
  | waiting (deadline : Nat)
  /-- The `select` is over and `Read` returns `res`. -/
  | returned (res : Response)
  deriving DecidableEq, Repr

/-- One call of `Read`: its goroutine and its own body. -/
structure Procs where
  getter : Getter
  reader : Reader
  deriving DecidableEq, Repr

/-- The statements of `Read` that can complete. -/
inductive Action where
  /-- The call `Get(url)` completes in the goroutine, which then enters its `select`. -/
  | getReturns
  /-- The send `done <- Get(url)` meets the receive `res = <-done`. -/
  | handoff
  /-- The goroutine takes its case `<-time.After(timeout)` and returns. -/
  | giveUp
  /-- The body takes its case `<-time.After(timeout)`. -/
  | timeout
  deriving DecidableEq, Repr

/-- The call `Read(url, timeout)` made at instant `now`: the goroutine is started and the
body enters its `select`, creating its timer. -/
def start (now : Nat) (timeout : Int) : Procs :=
  ⟨.inGet, .waiting (deadlineAfter now timeout)⟩

/-- One statement of `Read` completes at instant `now`; `none` when it cannot. -/
def act (net : Net) (url : String) (timeout : Int) (now : Nat) (a : Action) (p : Procs) :
    Option Procs :=
  match a, p.getter, p.reader with
  | .getReturns, .inGet, _ =>
      match (net url).delay with
      | none => none
      | some d =>
          if d ≤ now then
            match getOf net url with
            | .ok r => some { p with getter := .offering r (deadlineAfter now timeout) }
            | .error msg => some { p with getter := .fatal msg }
          else none
  | .handoff, .offering r _, .waiting _ => some ⟨.exited, .returned r⟩
  | .giveUp, .offering _ deadline, _ =>
      if deadline ≤ now then some { p with getter := .exited } else none
  | .timeout, _, .waiting deadline =>
      if deadline ≤ now then some { p with reader := .returned gatewayTimeout } else none
  | _, _, _ => none

/-- Has `log.Fatalf` ended the process? -/
def crashed (p : Procs) : Bool :=
  match p.getter with
  | .fatal _ => true
  | _ => false

/-- Every statement of `Read`. -/
def actions : List Action := [.getReturns, .handoff, .giveUp, .timeout]

/-- A call of `Read` on its own: the clock and the call. -/
structure State where
  now : Nat
  procs : Procs
  deriving DecidableEq, Repr

/-- What can happen to a call of `Read` on its own. -/
inductive Event where
  /-- One nanosecond passes. -/
  | tick
  /-- A statement completes. -/
  | act (a : Action)
  deriving DecidableEq, Repr

/-- The call `Read(url, timeout)` at instant 0. -/
def init (timeout : Int) : State := ⟨0, start 0 timeout⟩

/-- One event, under a scheduler with arbitrary slack. After `log.Fatalf` nothing runs. -/
def step (net : Net) (url : String) (timeout : Int) (e : Event) (s : State) : Option State :=
  if crashed s.procs then none else
  match e with
  | .tick => some { s with now := s.now + 1 }
  | .act a => (act net url timeout s.now a s.procs).map fun p => { s with procs := p }

/-- No statement can complete at this instant. -/
def quiet (net : Net) (url : String) (timeout : Int) (s : State) : Bool :=
  actions.all fun a => (step net url timeout (.act a) s).isNone

/-- One event, under the scheduler without slack: time passes only when nothing can run. -/
def idealStep (net : Net) (url : String) (timeout : Int) (e : Event) (s : State) :
    Option State :=
  match e with
  | .tick => if quiet net url timeout s then step net url timeout .tick s else none
  | .act a => step net url timeout (.act a) s

end Read

namespace MultiRead

/-- The goroutine `MultiRead` starts for one url (client.go:89-94). -/
inductive Outer where
  /-- In the call `Read(url, timeout)` (line 90). -/
  | inRead
  /-- Blocked in `done <- response` (line 92). -/
  | sending (response : Response)
  /-- The goroutine has ended. -/
  | exited
  deriving DecidableEq, Repr

/-- One url: the goroutine of `MultiRead` and the call of `Read` it makes. -/
structure Worker where
  url : String
  read : Read.Procs
  outer : Outer
  deriving DecidableEq, Repr

/-- The body of `MultiRead` after the loop (client.go:97-102). -/
inductive Caller where
  /-- In the `select`: receiving on `done`, or the timer with this deadline. -/
  | waiting (deadline : Nat)
  /-- The `select` is over and `MultiRead` returns `res`. -/
  | returned (res : Response)
  deriving DecidableEq, Repr

/-- One call of `MultiRead`: the clock, a worker per url, and the caller. -/
structure State where
  now : Nat
  workers : List Worker
  caller : Caller
  deriving DecidableEq, Repr

/-- What can happen in a call of `MultiRead`. -/
inductive Action where
  /-- One nanosecond passes. -/
  | tick
  /-- A statement of the call of `Read` made by worker `i` completes. -/
  | read (i : Nat) (a : Read.Action)
  /-- Worker `i` has its response from `Read` and tests `response.StatusCode == 200`. -/
  | check (i : Nat)
  /-- The send `done <- response` of worker `i` meets the receive `res = <-done`. -/
  | deliver (i : Nat)
  /-- The caller takes its case `<-time.After(timeout)`. -/
  | timeout
  deriving DecidableEq, Repr

/-- The call `MultiRead(urls, timeout)` at instant 0: the loop has started one goroutine
per url, each has called `Read`, and the caller has entered its `select`. -/
def init (urls : List String) (timeout : Int) : State :=
  { now := 0
    workers := urls.map fun url => ⟨url, Read.start 0 timeout, .inRead⟩
    caller := .waiting (deadlineAfter 0 timeout) }

/-- Has `log.Fatalf` ended the process? -/
def crashed (s : State) : Bool := s.workers.any fun w => Read.crashed w.read

/-- One event, under a scheduler with arbitrary slack. After `log.Fatalf` nothing runs. -/
def step (net : Net) (timeout : Int) (a : Action) (s : State) : Option State :=
  if crashed s then none else
  match a with
  | .tick => some { s with now := s.now + 1 }
  | .read i a =>
      match s.workers[i]? with
      | none => none
      | some w =>
          (Read.act net w.url timeout s.now a w.read).map fun p =>
            { s with workers := s.workers.set i { w with read := p } }
  | .check i =>
      match s.workers[i]? with
      | none => none
      | some w =>
          match w.outer, w.read.reader with
          | .inRead, .returned response =>
              if response.StatusCode = 200 then
                some { s with workers := s.workers.set i { w with outer := .sending response } }
              else
                some { s with workers := s.workers.set i { w with outer := .exited } }
          | _, _ => none
  | .deliver i =>
      match s.workers[i]? with
      | none => none
      | some w =>
          match w.outer, s.caller with
          | .sending response, .waiting _ =>
              some { s with workers := s.workers.set i { w with outer := .exited },
                            caller := .returned response }
          | _, _ => none
  | .timeout =>
      match s.caller with
      | .waiting deadline =>
          if deadline ≤ s.now then some { s with caller := .returned serviceUnavailable }
          else none
      | .returned _ => none

/-- The statements of worker `i`. -/
def workerActions (i : Nat) : List Action :=
  [.read i .getReturns, .read i .handoff, .read i .giveUp, .read i .timeout, .check i, .deliver i]

/-- Every statement of the system (everything but the passing of time). -/
def statements (s : State) : List Action :=
  .timeout :: (List.range s.workers.length).flatMap workerActions

/-- No statement can complete at this instant. -/
def quiet (net : Net) (timeout : Int) (s : State) : Bool :=
  (statements s).all fun a => (step net timeout a s).isNone

/-- One event, under the scheduler without slack: time passes only when nothing can run. -/
def idealStep (net : Net) (timeout : Int) (a : Action) (s : State) : Option State :=
  match a with
  | .tick => if quiet net timeout s then step net timeout .tick s else none
  | a => step net timeout a s

end MultiRead

/-- The server behind `url` answers: `Get(url)` returns `r`, `d` nanoseconds after the call. -/
def Answers (net : Net) (url : String) (d : Nat) (r : Response) : Prop :=
  (net url).delay = some d ∧ getOf net url = .ok r

/-- The call `Get(url)` ends the process with `log.Fatalf`, at instant `t` or before. -/
def DiesBy (net : Net) (url : String) (t : Nat) : Prop :=
  ∃ d msg, (net url).delay = some d ∧ d ≤ t ∧ getOf net url = .error msg

namespace Read

/-- The invariant of one call of `Read`, under any scheduler: what the goroutine offers and
what the body returns come from `Get(url)` or are the sentinel, and the deadlines are those
of `timeout`. -/
def Good (net : Net) (url : String) (timeout : Int) (now : Nat) (p : Procs) : Prop :=
  (∀ r dl, p.getter = .offering r dl →
    (∃ d, Answers net url d r ∧ d ≤ now) ∧ timeout.toNat ≤ dl) ∧
  (∀ dl, p.reader = .waiting dl → dl = timeout.toNat) ∧
  (∀ x, p.reader = .returned x →
    (∃ d, Answers net url d x ∧ d ≤ now) ∨ (x = gatewayTimeout ∧ timeout.toNat ≤ now)) ∧
  (p.getter = .exited → (∃ x, p.reader = .returned x) ∨ timeout.toNat ≤ now) ∧
  (∀ msg, p.getter = .fatal msg → DiesBy net url now)

/-- The invariant of a call of `Read` on its own under the scheduler without slack: while
the body waits, neither its deadline nor the answer of `Get` lies in the past, and what it
returns is the answer when that came by the deadline, the sentinel when it did not come
before the deadline. -/
def Ideal (net : Net) (url : String) (timeout : Int) (s : State) : Prop :=
  (∀ dl, s.procs.reader = .waiting dl →
    s.now ≤ timeout.toNat ∧ ∀ d, (net url).delay = some d → s.now ≤ d) ∧
  (∀ x, s.procs.reader = .returned x →
    (∃ d, Answers net url d x ∧ d ≤ timeout.toNat) ∨
    (x = gatewayTimeout ∧ ∀ d, (net url).delay = some d → timeout.toNat ≤ d))

/-- Statements the goroutine and the body still have to complete, at most. -/
def remaining (p : Procs) : Nat :=
  (match p.getter with
    | .inGet => 2
    | .offering _ _ => 1
    | .exited => 0
    | .fatal _ => 0) +
  (match p.reader with
    | .waiting _ => 1
    | .returned _ => 0)

end Read

namespace MultiRead

/-- The invariant of one worker, under any scheduler: its call of `Read` is in order, it
sends only a response with status 200 that `Read` returned, and, as long as the caller still
waits (`waiting`), it has ended only on a response with another status. -/
def WGood (net : Net) (timeout : Int) (now : Nat) (waiting : Prop) (w : Worker) : Prop :=
  Read.Good net w.url timeout now w.read ∧
  (∀ y, w.outer = .sending y → w.read.reader = .returned y ∧ y.StatusCode = 200) ∧
  (w.outer = .exited → ∃ x, w.read.reader = .returned x ∧ (waiting → x.StatusCode ≠ 200))

/-- The response `x` has status 200 and was produced by `Get` for one of the urls. -/
def Qualifies (net : Net) (urls : List String) (x : Response) : Prop :=
  x.StatusCode = 200 ∧ ∃ u ∈ urls, ∃ d, Answers net u d x

/-- The invariant of a call of `MultiRead`, under any scheduler. -/
def Good (net : Net) (urls : List String) (timeout : Int) (s : State) : Prop :=
  s.workers.map (fun w => w.url) = urls ∧
  (∀ w ∈ s.workers, WGood net timeout s.now (∃ dl, s.caller = .waiting dl) w) ∧
  (∀ dl, s.caller = .waiting dl → dl = timeout.toNat) ∧
  (∀ x, s.caller = .returned x → x = serviceUnavailable ∨ Qualifies net urls x)

/-- The response `x` is that of a server that answers 200, by instant `t`, and no server
of the list answers 200 earlier. -/
def First (net : Net) (urls : List String) (t : Nat) (x : Response) : Prop :=
  ∃ u ∈ urls, ∃ d, Answers net u d x ∧ x.StatusCode = 200 ∧ d ≤ t ∧
    ∀ u' ∈ urls, ∀ d' r', Answers net u' d' r' → r'.StatusCode = 200 → d ≤ d'

/-- The invariant of a call of `MultiRead` under the scheduler without slack: while the
caller waits, neither its deadline nor any answer with status 200 lies in the past; what it
returns is the earliest such answer, or the sentinel when none came before the deadline. -/
def Ideal (net : Net) (urls : List String) (timeout : Int) (s : State) : Prop :=
  (∀ dl, s.caller = .waiting dl → s.now ≤ timeout.toNat ∧
    ∀ u ∈ urls, ∀ d r, Answers net u d r → r.StatusCode = 200 → s.now ≤ d) ∧
  (∀ x, s.caller = .returned x → First net urls timeout.toNat x ∨
    (x = serviceUnavailable ∧
      ∀ u ∈ urls, ∀ d r, Answers net u d r → r.StatusCode = 200 → timeout.toNat ≤ d))

/-- Statements a worker still has to complete, at most. -/
def remaining (w : Worker) : Nat :=
  Read.remaining w.read +
  (match w.outer with
    | .inRead => 2
    | .sending _ => 1
    | .exited => 0)

/-- The measure of a call of `MultiRead`: time left to the deadline plus statements left. -/
def measure (timeout : Int) (s : State) : Nat :=
  (timeout.toNat - s.now) + (s.workers.map remaining).sum

end MultiRead

end Client

/-! ## Concrete networks and runs, used to exhibit the theorems -/

namespace Client

/-- Two servers that both answer 200, after 1 and 2 nanoseconds. -/
def twoGood : Net := fun url =>
  if url = "a" then ⟨some 1, .ok 200 "A"⟩ else ⟨some 2, .ok 200 "B"⟩

/-- Server `"a"` answers 500 at once, every other server answers 200 after 2 nanoseconds. -/
def badThenGood : Net := fun url =>
  if url = "a" then ⟨some 0, .ok 500 "E"⟩ else ⟨some 2, .ok 200 "B"⟩

/-- Every server answers 500 at once. -/
def allBad : Net := fun _ => ⟨some 0, .ok 500 "E"⟩

/-- No server ever responds. -/
def silent : Net := fun _ => ⟨none, .connectError⟩

/-- Every server sends its response head at once, and then the body cannot be read. -/
def dying : Net := fun _ => ⟨some 0, .readError 200 "unexpected EOF"⟩

/-- Every server answers 200 after exactly 2 nanoseconds. -/
def atDeadline : Net := fun _ => ⟨some 2, .ok 200 "B"⟩

namespace Read

/-- The state of a call `Read(url, 1)` after the only event possible against `dying`:
`log.Fatalf` in the call of `Get`, with the body still in its `select`. -/
def dead : State := ⟨0, ⟨.fatal "ReadAll: unexpected EOF", .waiting 1⟩⟩

end Read

namespace MultiRead

/-- A run against `badThenGood`: `"a"` answers 500 and its worker ends, two nanoseconds
pass, `"b"` answers 200 and its worker delivers. -/
def badThenGoodRun : List Action :=
  [.read 0 .getReturns, .read 0 .handoff, .check 0, .tick, .tick,
   .read 1 .getReturns, .read 1 .handoff, .check 1, .deliver 1]

/-- A run against `twoGood`: one nanosecond passes, `"a"` answers 200 and its worker
delivers. -/
def twoGoodRun : List Action :=
  [.tick, .read 0 .getReturns, .read 0 .handoff, .check 0, .deliver 0]

/-- A run against `atDeadline` with one url and a timeout of 2: two nanoseconds pass, and
at the deadline itself the server answers 200 and its worker delivers. -/
def tieRun : List Action :=
  [.tick, .tick, .read 0 .getReturns, .read 0 .handoff, .check 0, .deliver 0]

/-- A run against `allBad` with one url and a timeout of 2: the worker ends on the 500, two
nanoseconds pass, the caller takes its timer case. -/
def allBadRun : List Action :=
  [.read 0 .getReturns, .read 0 .handoff, .check 0, .tick, .tick, .timeout]

/-- A run against `silent` with one url and a timeout of 2: two nanoseconds pass, the call
of `Read` takes its timer case, the worker ends on the 504, the caller takes its timer case,
and three more nanoseconds pass. -/
def silentRun : List Action :=
  [.tick, .tick, .read 0 .timeout, .check 0, .timeout, .tick, .tick, .tick]

/-- A run against `twoGood`: `"a"` answers after 1 nanosecond and its worker delivers; `"b"`
answers after 2 and its worker reaches `done <- response`. -/
def leakRun : List Action :=
  [.tick, .read 0 .getReturns, .read 0 .handoff, .check 0, .deliver 0,
   .tick, .read 1 .getReturns, .read 1 .handoff, .check 1]

/-- The state `leakRun` ends in: the caller has returned the response of `"a"`, the worker
of `"b"` is in `done <- response`. -/
def leaked : State :=
  { now := 2
    workers := [⟨"a", ⟨.exited, .returned ⟨"A", 200⟩⟩, .exited⟩,
                ⟨"b", ⟨.exited, .returned ⟨"B", 200⟩⟩, .sending ⟨"B", 200⟩⟩]
    caller := .returned ⟨"A", 200⟩ }

/-- The state after the only event possible against `dying`: `log.Fatalf` in the call of
`Get`, with the caller still in its `select`. -/
def dead : State :=
  { now := 0
    workers := [⟨"u", ⟨.fatal "ReadAll: unexpected EOF", .waiting 1⟩, .inRead⟩]
    caller := .waiting 1 }

end MultiRead

end Client

/-! # Theorems

## lab8/oracle.go: the patterns of `prophecy` -/

namespace Oracle

theorem compile_question : compile patternQuestion = some [.many .dot, .one (.lit '?')] := by
  decide

theorem compile_statement : compile patternStatement = some [.many .dot, .one (.lit '.')] := by
  decide

theorem matchHere_mem (c : Char) (s : List Char)
    (h : matchHere [.many .dot, .one (.lit c)] s = true) : c ∈ s := by
  induction s with
  | nil => simp [matchHere, manyThen] at h
  | cons x xs ih =>
    simp only [matchHere, manyThen, Bool.or_eq_true, Bool.and_eq_true, Atom.accepts,
      beq_iff_eq, Bool.and_true] at h
    rcases h with h | ⟨_, h⟩
    · simp [h]
    · exact List.mem_cons_of_mem _ (ih (by simpa [matchHere] using h))

/-- The unanchored search with `.*` followed by the literal `c` succeeds exactly on the
inputs that contain `c`. -/
theorem matchFrom_iff (c : Char) (s : List Char) :
    matchFrom [.many .dot, .one (.lit c)] s = true ↔ c ∈ s := by
  induction s with
  | nil => simp [matchFrom, matchHere, manyThen]
  | cons x xs ih =>
    simp only [matchFrom, Bool.or_eq_true, List.mem_cons]
    constructor
    · rintro (h | h)
      · have := matchHere_mem c (x :: xs) h
        simpa [List.mem_cons] using this
      · exact Or.inr (ih.mp h)
    · rintro (h | h)
      · left
        simp [matchHere, manyThen, Atom.accepts, h]
      · exact Or.inr (ih.mpr h)

/-- For a question that contains a `'?'` and no `'.'`, the message `prophecy` sends is an
element of `answers[1]`, the answers to questions. -/
theorem prophecy_question_without_dot (question : String) (pick : Nat) (msg : String)
    (hq : '?' ∈ question.toList) (hs : '.' ∉ question.toList)
    (h : prophecy question pick = some msg) : msg ∈ answers.getD 1 [] := by
  have h1 : MatchString patternQuestion question = true := by
    simp only [MatchString, compile_question]
    exact (matchFrom_iff '?' question.toList).mpr hq
  have h2 : MatchString patternStatement question = false := by
    simp only [MatchString, compile_statement]
    cases hm : matchFrom [.many .dot, .one (.lit '.')] question.toList with
    | false => rfl
    | true => exact absurd ((matchFrom_iff '.' question.toList).mp hm) hs
  have hc : collection question = 1 := by simp [collection, h1, h2]
  simp only [prophecy, hc] at h
  exact List.mem_iff_getElem?.mpr ⟨pick, h⟩

/-- C9 fails on the code. For every question that contains a `'?'` and also a `'.'`, the
statement pattern matches as well and overrides the choice: the message `prophecy` sends is
an element of `answers[2]`, the answers to statements, and not of `answers[1]`. -/
theorem prophecy_question_with_dot (question : String) (pick : Nat) (msg : String)
    (hq : '?' ∈ question.toList) (hs : '.' ∈ question.toList)
    (h : prophecy question pick = some msg) :
    MatchString patternQuestion question = true ∧
    msg ∈ answers.getD 2 [] ∧ msg ∉ answers.getD 1 [] := by
  have h1 : MatchString patternQuestion question = true := by
    simp only [MatchString, compile_question]
    exact (matchFrom_iff '?' question.toList).mpr hq
  have h2 : MatchString patternStatement question = true := by
    simp only [MatchString, compile_statement]
    exact (matchFrom_iff '.' question.toList).mpr hs
  have hc : collection question = 2 := by simp [collection, h1, h2]
  have hmem : msg ∈ answers.getD 2 [] := by
    simp only [prophecy, hc] at h
    exact List.mem_iff_getElem?.mpr ⟨pick, h⟩
  refine ⟨h1, hmem, ?_⟩
  have hdisj : ∀ m ∈ answers.getD 2 [], m ∉ answers.getD 1 [] := by decide
  exact hdisj msg hmem

theorem prophecy_question_with_dot_witness :
    prophecy "Is it 3.5?" 0 = some "You think? It sounds like you are in over your head." ∧
    "You think? It sounds like you are in over your head." ∉ answers.getD 1 [] :=
  ⟨by decide,
   (prophecy_question_with_dot "Is it 3.5?" 0
      "You think? It sounds like you are in over your head."
      (by decide) (by decide) (by decide)).2.2⟩

end Oracle

/-! ## lab8/bug2.go: the program goes to 11 -/

namespace Bug2

theorem out_snoc (o : List Nat) (n : Nat) (h : o = List.range' 1 o.length)
    (hn : n = o.length + 1) : o ++ [n] = List.range' 1 (o.length + 1) := by
  rw [List.range'_concat, ← h, hn]
  simp [Nat.add_comm]

theorem inv_init : Inv init := by
  simp [Inv, init, handed, held]

theorem inv_step (a : Action) (s s' : State) (hi : Inv s) (h : step a s = some s') :
    Inv s' ∧ progress s' = progress s + 1 := by
  obtain ⟨m, p, c, o⟩ := s
  cases a <;> cases m <;> cases p <;> simp [step] at h <;>
    (try obtain ⟨h1, h2⟩ := h) <;> subst_vars <;>
    simp [Inv, handed, held, progress] at hi ⊢ <;>
    (try split_ands) <;>
    first
      | omega
      | tauto
      | (refine out_snoc _ _ hi.1 ?_; omega)

theorem inv_run (acts : List Action) (s s' : State) (hi : Inv s) (h : run acts s = some s') :
    Inv s' ∧ progress s' = progress s + acts.length := by
  induction acts generalizing s with
  | nil =>
    simp only [run, Option.some.injEq] at h
    subst h
    exact ⟨hi, rfl⟩
  | cons a as ih =>
    simp only [run] at h
    cases hs : step a s with
    | none => simp [hs] at h
    | some t =>
      rw [hs] at h
      obtain ⟨hit, hpt⟩ := inv_step a s t hi hs
      obtain ⟨hi', hp'⟩ := ih t hit h
      refine ⟨hi', ?_⟩
      rw [hp', hpt, List.length_cons]
      omega

theorem inv_canStep (s : State) (hi : Inv s) (hm : s.main ≠ .exited) : canStep s = true := by
  obtain ⟨m, p, c, o⟩ := s
  obtain ⟨-, hh, hm', hp⟩ := hi
  cases m <;> cases p <;> simp [handed, held] at hh hm hm' hp <;>
    (simp [canStep, allActions, step, hm']; try omega)

theorem out_full (o : List Nat) (ho : o = List.range' 1 o.length) (hl : o.length = 11) :
    o = [1, 2, 3, 4, 5, 6, 7, 8, 9, 10, 11] := by
  rw [ho, hl]
  rfl

/-- C10. In every interleaving of `main` and `Print` (bug2.go): the output is always
`1, 2, ..., k` for some `k ≤ 11`; once `main` has received on `done` (and so when it has
returned and the program has ended) the output is exactly `1, ..., 11`; `Print` leaves its
loop and returns only with `ch` closed and all eleven numbers printed; the program is never
stuck before `main` returns; and no interleaving has more than 39 steps, so it terminates. -/
theorem goes_to_eleven (acts : List Action) (s : State) (h : run acts init = some s) :
    (∃ k, k ≤ 11 ∧ s.out = List.range' 1 k) ∧
    ((s.main = .returning ∨ s.main = .exited) → s.out = [1, 2, 3, 4, 5, 6, 7, 8, 9, 10, 11]) ∧
    ((s.printer = .sendDone ∨ s.printer = .returning ∨ s.printer = .returned) →
      s.closed = true ∧ s.out = [1, 2, 3, 4, 5, 6, 7, 8, 9, 10, 11]) ∧
    (s.main ≠ .exited → canStep s = true) ∧
    acts.length ≤ 39 := by
  obtain ⟨hi, hp⟩ := inv_run acts init s inv_init h
  have hprog : progress init = 0 := by simp [progress, init]
  have hfull := out_full s.out hi.1
  rw [hprog] at hp
  refine ⟨⟨s.out.length, ?_, hi.1⟩, ?_, ?_, inv_canStep s hi, ?_⟩
  all_goals
    obtain ⟨-, hh, hm, hpr⟩ := hi
    obtain ⟨m, p, c, o⟩ := s
    simp only at hh hm hpr hfull hp ⊢
  · cases m <;> cases p <;> simp [handed, held] at hh hm hpr <;> omega
  · rintro (rfl | rfl) <;>
      · simp [handed] at hh hm
        apply hfull
        rcases hm with ⟨_, rfl | rfl⟩ <;> simp [held] at hh <;> omega
  · intro hq
    have h11 : handed m = 11 ∧ c = true ∧ held p = 0 := by
      rcases hq with rfl | rfl | rfl <;> simp at hpr
      · subst hpr; simpa [handed, held] using hm
      · rcases hpr with rfl | rfl <;> simpa [handed, held] using hm.1
      · rcases hpr with rfl | rfl <;> simpa [handed, held] using hm.1
    exact ⟨h11.2.1, hfull (by omega)⟩
  · cases m <;> cases p <;> simp [handed, held, progress] at hh hm hpr hp <;> omega

theorem goes_to_eleven_witness :
    run fullRun init = some ⟨.exited, .returning, true, [1, 2, 3, 4, 5, 6, 7, 8, 9, 10, 11]⟩ ∧
    fullRun.length ≤ 39 :=
  ⟨by decide, (goes_to_eleven fullRun _ (by decide : run fullRun init = some
    ⟨.exited, .returning, true, [1, 2, 3, 4, 5, 6, 7, 8, 9, 10, 11]⟩)).2.2.2.2⟩

end Bug2

/-! ## Runs of a state machine -/

/-- Along a run, an invariant `P` kept by every step holds at the end, and a measure `μ` that
every step lowers while the state stays `live` bounds the length of the run. -/
theorem runWith_measure {σ α : Type} (step : α → σ → Option σ) (P live : σ → Prop) (μ : σ → Nat)
    (hP : ∀ a s s', P s → step a s = some s' → P s' ∧ (live s' → live s ∧ μ s' < μ s))
    (acts : List α) (s s' : σ) (h0 : P s) (h : runWith step acts s = some s') :
    P s' ∧ (live s' → live s ∧ μ s' + acts.length ≤ μ s) := by
  induction acts generalizing s with
  | nil =>
    simp only [runWith, Option.some.injEq] at h
    subst h
    exact ⟨h0, fun hl => ⟨hl, by simp⟩⟩
  | cons a as ih =>
    simp only [runWith] at h
    cases hs : step a s with
    | none => simp [hs] at h
    | some t =>
      rw [hs] at h
      obtain ⟨hPt, hlt⟩ := hP a s t h0 hs
      obtain ⟨hP', hl'⟩ := ih t hPt h
      refine ⟨hP', fun hl => ?_⟩
      obtain ⟨hlt', hm⟩ := hl' hl
      obtain ⟨hls, hlt''⟩ := hlt hlt'
      refine ⟨hls, ?_⟩
      rw [List.length_cons]
      omega

/-! ## lab9/client.go: `Get` -/

namespace Client

theorem answers_unique (net : Net) (url : String) (d d' : Nat) (r r' : Response)
    (h : Answers net url d r) (h' : Answers net url d' r') : d = d' ∧ r = r' := by
  obtain ⟨h1, h2⟩ := h
  obtain ⟨h1', h2'⟩ := h'
  rw [h1] at h1'
  rw [h2] at h2'
  exact ⟨by simpa using h1', by simpa using h2'⟩

/-- C6, as amended. When the connection cannot be established, `Get` returns
`Response{"", 0}`; when the response body cannot be read, `Get` does not return at all: it
ends the process with `log.Fatalf("ReadAll: ...")`. -/
theorem get_failure (http : String → Transport) (url : String) :
    (http url = .connectError → Get http url = .ok ⟨"", 0⟩) ∧
    (∀ status err, http url = .readError status err →
      Get http url = .error ("ReadAll: " ++ err)) := by
  constructor
  · intro h
    simp [Get, h]
  · intro status err h
    simp [Get, h]

theorem get_failure_witness :
    Get (fun _ => .connectError) "http://localhost:8080" = .ok ⟨"", 0⟩ ∧
    Get (fun _ => .readError 200 "unexpected EOF") "http://localhost:8080" =
      .error ("ReadAll: " ++ "unexpected EOF") :=
  ⟨(get_failure (fun _ => .connectError) "http://localhost:8080").1 rfl,
   (get_failure (fun _ => .readError 200 "unexpected EOF") "http://localhost:8080").2
     200 "unexpected EOF" rfl⟩

/-- C6 as stated fails: when the response body cannot be read, `Get` does not return
`Response{"", 0}` but ends the process with `log.Fatalf`. -/
theorem get_failure_counterexample :
    Get (fun _ => .readError 200 "unexpected EOF") "http://localhost:8080" =
      .error "ReadAll: unexpected EOF" ∧
    Get (fun _ => .readError 200 "unexpected EOF") "http://localhost:8080" ≠ .ok ⟨"", 0⟩ := by
  constructor
  · rfl
  · intro h
    simp [Get] at h

/-! ## lab9/client.go: one call of `Read` -/

namespace Read

theorem good_start (net : Net) (url : String) (timeout : Int) :
    Good net url timeout 0 (start 0 timeout) := by
  simp [Good, start, deadlineAfter]

theorem good_mono (net : Net) (url : String) (timeout : Int) (now now' : Nat) (p : Procs)
    (h : Good net url timeout now p) (hle : now ≤ now') : Good net url timeout now' p := by
  obtain ⟨h1, h2, h3, h4, h5⟩ := h
  refine ⟨?_, h2, ?_, ?_, ?_⟩
  rotate_right
  · intro msg hm
    obtain ⟨d, m, hd, hdn, he⟩ := h5 msg hm
    exact ⟨d, m, hd, by omega, he⟩
  · intro r dl hg
    obtain ⟨⟨d, hd, hdn⟩, hdl⟩ := h1 r dl hg
    exact ⟨⟨d, hd, by omega⟩, hdl⟩
  · intro x hx
    rcases h3 x hx with ⟨d, hd, hdn⟩ | ⟨hx', hT⟩
    · exact Or.inl ⟨d, hd, by omega⟩
    · exact Or.inr ⟨hx', by omega⟩
  · intro hg
    rcases h4 hg with h | h
    · exact Or.inl h
    · exact Or.inr (by omega)

/-- What a statement of `Read` that completes was, and what it did. -/
theorem act_cases (net : Net) (url : String) (timeout : Int) (now : Nat) (a : Action)
    (p p' : Procs) (h : act net url timeout now a p = some p') :
    (a = .getReturns ∧ p.getter = .inGet ∧ ∃ d, (net url).delay = some d ∧ d ≤ now ∧
      ((∃ r, getOf net url = .ok r ∧
          p' = ⟨.offering r (deadlineAfter now timeout), p.reader⟩) ∨
       (∃ msg, getOf net url = .error msg ∧ p' = ⟨.fatal msg, p.reader⟩))) ∨
    (a = .handoff ∧ ∃ r dl dl', p = ⟨.offering r dl, .waiting dl'⟩ ∧
      p' = ⟨.exited, .returned r⟩) ∨
    (a = .giveUp ∧ ∃ r dl, p.getter = .offering r dl ∧ dl ≤ now ∧ p' = ⟨.exited, p.reader⟩) ∨
    (a = .timeout ∧ ∃ dl, p.reader = .waiting dl ∧ dl ≤ now ∧
      p' = ⟨p.getter, .returned gatewayTimeout⟩) := by
  obtain ⟨g, rd⟩ := p
  cases a <;> cases g <;> cases rd <;> simp [act] at h
  case getReturns.inGet.waiting | getReturns.inGet.returned =>
    left
    split at h
    · simp at h
    · rename_i d hd
      split at h
      · rename_i hle
        refine ⟨rfl, rfl, d, hd, hle, ?_⟩
        split at h
        · rename_i r hr
          exact Or.inl ⟨r, hr, by simpa using h.symm⟩
        · rename_i msg hr
          exact Or.inr ⟨msg, hr, by simpa using h.symm⟩
      · simp at h
  case handoff.offering.waiting =>
    right; left
    exact ⟨rfl, _, _, _, rfl, h.symm⟩
  case giveUp.offering.waiting | giveUp.offering.returned =>
    right; right; left
    exact ⟨rfl, _, _, rfl, h.1, h.2.symm⟩
  all_goals
    right; right; right
    exact ⟨rfl, _, rfl, h.1, h.2.symm⟩

theorem good_act (net : Net) (url : String) (timeout : Int) (now : Nat) (a : Action)
    (p p' : Procs) (hg : Good net url timeout now p)
    (h : act net url timeout now a p = some p') : Good net url timeout now p' := by
  obtain ⟨h1, h2, h3, h4, h5⟩ := hg
  rcases act_cases net url timeout now a p p' h with
    ⟨-, hin, d, hd, hle, ⟨r, hr, rfl⟩ | ⟨msg, hr, rfl⟩⟩ | ⟨-, r, dl, dl', rfl, rfl⟩ |
    ⟨-, r, dl, hg, hle, rfl⟩ | ⟨-, dl, hw, hle, rfl⟩
  · refine ⟨?_, h2, h3, ?_, ?_⟩
    · intro r' dl' he
      simp only [Getter.offering.injEq] at he
      obtain ⟨rfl, rfl⟩ := he
      exact ⟨⟨d, ⟨hd, hr⟩, hle⟩, by simp [deadlineAfter]⟩
    · simp
    · simp
  · refine ⟨?_, h2, h3, ?_, ?_⟩
    · simp
    · simp
    · intro m _
      exact ⟨d, msg, hd, hle, hr⟩
  · obtain ⟨hans, -⟩ := h1 r dl rfl
    refine ⟨by simp, by simp, ?_, by simp, by simp⟩
    intro x hx
    simp only [Reader.returned.injEq] at hx
    subst hx
    exact Or.inl hans
  · obtain ⟨-, hdl⟩ := h1 r dl hg
    refine ⟨by simp, h2, h3, ?_, by simp⟩
    intro _
    exact Or.inr (by omega)
  · have := h2 dl hw
    refine ⟨h1, by simp, ?_, ?_, h5⟩
    · intro x hx
      simp only [Reader.returned.injEq] at hx
      subst hx
      exact Or.inr ⟨rfl, by omega⟩
    · intro _
      exact Or.inl ⟨_, rfl⟩

theorem act_reader_returned (net : Net) (url : String) (timeout : Int) (now : Nat)
    (a : Action) (p p' : Procs) (x : Response)
    (h : act net url timeout now a p = some p') (hx : p.reader = .returned x) :
    p'.reader = .returned x := by
  rcases act_cases net url timeout now a p p' h with
    ⟨-, -, d, -, -, ⟨r, -, rfl⟩ | ⟨msg, -, rfl⟩⟩ | ⟨-, r, dl, dl', rfl, rfl⟩ |
    ⟨-, r, dl, -, -, rfl⟩ | ⟨-, dl, hw, -, rfl⟩
  · exact hx
  · exact hx
  · simp at hx
  · exact hx
  · rw [hw] at hx
    simp at hx

theorem act_remaining (net : Net) (url : String) (timeout : Int) (now : Nat) (a : Action)
    (p p' : Procs) (h : act net url timeout now a p = some p') :
    remaining p' < remaining p := by
  rcases act_cases net url timeout now a p p' h with
    ⟨-, hin, d, -, -, ⟨r, -, rfl⟩ | ⟨msg, -, rfl⟩⟩ | ⟨-, r, dl, dl', rfl, rfl⟩ |
    ⟨-, r, dl, hg, -, rfl⟩ | ⟨-, dl, hw, -, rfl⟩
  · simp [remaining, hin]
  · simp [remaining, hin]
  · simp [remaining]
  · simp [remaining, hg]
  · simp [remaining, hw]

theorem read_step_cases (net : Net) (url : String) (timeout : Int) (e : Event) (s s' : State)
    (h : step net url timeout e s = some s') :
    crashed s.procs = false ∧
    ((e = .tick ∧ s' = ⟨s.now + 1, s.procs⟩) ∨
     (∃ a p', e = .act a ∧ act net url timeout s.now a s.procs = some p' ∧ s' = ⟨s.now, p'⟩)) := by
  unfold step at h
  split at h
  · simp at h
  · rename_i hc
    refine ⟨by simpa using hc, ?_⟩
    cases e with
    | tick => exact Or.inl ⟨rfl, by simpa using h.symm⟩
    | act a =>
      right
      simp only [Option.map_eq_some'] at h
      obtain ⟨p', hp, rfl⟩ := h
      exact ⟨a, p', rfl, hp, rfl⟩

theorem read_idealStep_step (net : Net) (url : String) (timeout : Int) (e : Event) (s s' : State)
    (h : idealStep net url timeout e s = some s') :
    step net url timeout e s = some s' ∧ (e = .tick → quiet net url timeout s = true) := by
  cases e with
  | tick =>
    simp only [idealStep] at h
    split at h
    · rename_i hq
      exact ⟨h, fun _ => hq⟩
    · simp at h
  | act a => exact ⟨h, by simp⟩

theorem quiet_act (net : Net) (url : String) (timeout : Int) (s : State)
    (hq : quiet net url timeout s = true) (hc : crashed s.procs = false) (a : Action) :
    act net url timeout s.now a s.procs = none := by
  have h : (step net url timeout (.act a) s).isNone = true := by
    simp only [quiet, actions, List.all_eq_true] at hq
    exact hq a (by cases a <;> simp)
  simpa [step, hc] using h

theorem act_getReturns_isSome (net : Net) (url : String) (timeout : Int) (now d : Nat)
    (p : Procs) (hg : p.getter = .inGet) (hd : (net url).delay = some d) (hle : d ≤ now) :
    (act net url timeout now .getReturns p).isSome = true := by
  obtain ⟨g, rd⟩ := p
  simp only at hg
  subst hg
  simp only [act, hd, hle, if_true]
  cases getOf net url <;> simp

theorem act_handoff (net : Net) (url : String) (timeout : Int) (now : Nat) (r : Response)
    (dl dl' : Nat) :
    act net url timeout now .handoff ⟨.offering r dl, .waiting dl'⟩ =
      some ⟨.exited, .returned r⟩ := by
  simp [act]

theorem act_timeout (net : Net) (url : String) (timeout : Int) (now dl : Nat) (p : Procs)
    (hw : p.reader = .waiting dl) (hle : dl ≤ now) :
    act net url timeout now .timeout p = some ⟨p.getter, .returned gatewayTimeout⟩ := by
  obtain ⟨g, rd⟩ := p
  simp only at hw
  subst hw
  cases g <;> simp [act, hle]

/-- A call of `Read` whose body waits while none of its statements can complete: the
deadline and the answer of `Get` both lie strictly ahead. -/
theorem stuck_waiting (net : Net) (url : String) (timeout : Int) (now : Nat) (p : Procs)
    (dl : Nat) (hg : Good net url timeout now p)
    (hnone : ∀ a, act net url timeout now a p = none)
    (hc : crashed p = false) (hw : p.reader = .waiting dl) :
    now < timeout.toNat ∧ ∀ d, (net url).delay = some d → d ≠ now := by
  obtain ⟨h1, h2, h3, h4, h5⟩ := hg
  have hT := h2 dl hw
  have hlt : now < timeout.toNat := by
    by_contra hcon
    have := act_timeout net url timeout now dl p hw (by omega)
    rw [hnone] at this
    simp at this
  refine ⟨hlt, ?_⟩
  intro d hd hdn
  obtain ⟨g, rd⟩ := p
  simp only at hw hd hdn hnone h4 hc hlt
  subst hw
  cases g with
  | inGet =>
    have := act_getReturns_isSome net url timeout now d ⟨.inGet, .waiting dl⟩ rfl hd (by omega)
    rw [hnone] at this
    simp at this
  | offering r dl' =>
    have := act_handoff net url timeout now r dl' dl
    rw [hnone] at this
    simp at this
  | exited =>
    rcases h4 rfl with ⟨x, hx⟩ | hle
    · simp at hx
    · omega
  | fatal msg => simp [crashed] at hc

theorem quiet_waiting (net : Net) (url : String) (timeout : Int) (s : State) (dl : Nat)
    (hg : Good net url timeout s.now s.procs) (hq : quiet net url timeout s = true)
    (hc : crashed s.procs = false) (hw : s.procs.reader = .waiting dl) :
    s.now < timeout.toNat ∧ ∀ d, (net url).delay = some d → d ≠ s.now :=
  stuck_waiting net url timeout s.now s.procs dl hg (quiet_act net url timeout s hq hc) hc hw

theorem read_ideal_init (net : Net) (url : String) (timeout : Int) :
    Good net url timeout (init timeout).now (init timeout).procs ∧
      Ideal net url timeout (init timeout) := by
  refine ⟨good_start net url timeout, ?_⟩
  simp [Ideal, init, start]

theorem read_ideal_step (net : Net) (url : String) (timeout : Int) (e : Event) (s s' : State)
    (hinv : Good net url timeout s.now s.procs ∧ Ideal net url timeout s)
    (h : idealStep net url timeout e s = some s') :
    (Good net url timeout s'.now s'.procs ∧ Ideal net url timeout s') ∧
    ((∃ dl, s'.procs.reader = .waiting dl) → (∃ dl, s.procs.reader = .waiting dl) ∧
      (timeout.toNat - s'.now) + remaining s'.procs <
        (timeout.toNat - s.now) + remaining s.procs) := by
  obtain ⟨hg, hw, hr⟩ := hinv
  obtain ⟨hstep, hquiet⟩ := read_idealStep_step net url timeout e s s' h
  obtain ⟨hc, ⟨rfl, rfl⟩ | ⟨a, p', rfl, hact, rfl⟩⟩ := read_step_cases net url timeout e s s' hstep
  · -- one nanosecond passes
    have hq := hquiet rfl
    refine ⟨⟨good_mono net url timeout s.now (s.now + 1) s.procs hg (by omega), ?_, hr⟩, ?_⟩
    · intro dl hdl
      obtain ⟨hlt, hne⟩ := quiet_waiting net url timeout s dl hg hq hc hdl
      refine ⟨by simp only; omega, ?_⟩
      intro d hd
      have := (hw dl hdl).2 d hd
      have := hne d hd
      simp only
      omega
    · rintro ⟨dl, hdl⟩
      obtain ⟨hlt, -⟩ := quiet_waiting net url timeout s dl hg hq hc hdl
      refine ⟨⟨dl, hdl⟩, ?_⟩
      simp only
      omega
  · -- a statement completes
    have hg' := good_act net url timeout s.now a s.procs p' hg hact
    refine ⟨⟨hg', ?_⟩, ?_⟩
    · rcases act_cases net url timeout s.now a s.procs p' hact with
        ⟨-, hin, d, hd, hle, ⟨r, hr', rfl⟩ | ⟨msg, hr', rfl⟩⟩ | ⟨-, r, dl, dl', hp, rfl⟩ |
        ⟨-, r, dl, hgt, hle, rfl⟩ | ⟨-, dl, hwt, hle, rfl⟩
      · exact ⟨hw, hr⟩
      · exact ⟨hw, hr⟩
      · refine ⟨by simp, ?_⟩
        intro x hx
        simp only [Reader.returned.injEq] at hx
        subst hx
        obtain ⟨⟨d, hans, hdn⟩, -⟩ := hg.1 r dl (by rw [hp])
        have := (hw dl' (by rw [hp])).1
        exact Or.inl ⟨d, hans, by omega⟩
      · exact ⟨hw, hr⟩
      · refine ⟨by simp, ?_⟩
        intro x hx
        simp only [Reader.returned.injEq] at hx
        subst hx
        refine Or.inr ⟨rfl, fun d hd => ?_⟩
        have := (hw dl hwt).2 d hd
        have := hg.2.1 dl hwt
        omega
    · rintro ⟨dl0, hdl0⟩
      simp only at hdl0
      rcases act_cases net url timeout s.now a s.procs p' hact with
        ⟨-, hin, d, hd, hle, ⟨r, hr', rfl⟩ | ⟨msg, hr', rfl⟩⟩ | ⟨-, r, dl, dl', hp, rfl⟩ |
        ⟨-, r, dl, hgt, hle, rfl⟩ | ⟨-, dl, hwt, hle, rfl⟩
      · simp only at hdl0
        exact ⟨⟨dl0, hdl0⟩, by simp [remaining, hin, hdl0]⟩
      · simp only at hdl0
        exact ⟨⟨dl0, hdl0⟩, by simp [remaining, hin, hdl0]⟩
      · simp at hdl0
      · simp only at hdl0
        exact ⟨⟨dl0, hdl0⟩, by simp [remaining, hgt, hdl0]⟩
      · simp at hdl0

theorem read_can_step (net : Net) (url : String) (timeout : Int) (s : State)
    (hc : crashed s.procs = false) : ∃ e s', idealStep net url timeout e s = some s' := by
  by_cases hq : quiet net url timeout s = true
  · exact ⟨.tick, ⟨s.now + 1, s.procs⟩, by simp [idealStep, hq, step, hc]⟩
  · simp only [quiet, List.all_eq_true, not_forall] at hq
    obtain ⟨a, -, ha⟩ := hq
    cases hs : step net url timeout (.act a) s with
    | none => simp [hs] at ha
    | some s' => exact ⟨.act a, s', hs⟩

theorem read_not_crashed (net : Net) (url : String) (timeout : Int) (s : State)
    (hg : Good net url timeout s.now s.procs) (hle : s.now ≤ timeout.toNat)
    (hd : ¬ DiesBy net url timeout.toNat) : crashed s.procs = false := by
  cases hgt : s.procs.getter with
  | fatal msg =>
    obtain ⟨d, m, h1, h2, h3⟩ := hg.2.2.2.2 msg hgt
    exact absurd ⟨d, m, h1, by omega, h3⟩ hd
  | _ => simp [crashed, hgt]

/-- Under the scheduler without slack, unless `log.Fatalf` strikes by the deadline: the body
of `Read` never waits past its deadline, is never stuck while it waits, and has returned in
every run of `timeout + 3` events. -/
theorem read_returns (net : Net) (url : String) (timeout : Int) (evs : List Event) (s : State)
    (hd : ¬ DiesBy net url timeout.toNat)
    (h : runWith (idealStep net url timeout) evs (init timeout) = some s) :
    (Good net url timeout s.now s.procs ∧ Ideal net url timeout s) ∧
    (∀ dl, s.procs.reader = .waiting dl →
      s.now ≤ timeout.toNat ∧ ∃ e s', idealStep net url timeout e s = some s') ∧
    (timeout.toNat + 3 ≤ evs.length → ∃ x, s.procs.reader = .returned x) := by
  obtain ⟨hinv, hm⟩ := runWith_measure (idealStep net url timeout)
    (fun s => Good net url timeout s.now s.procs ∧ Ideal net url timeout s)
    (fun s => ∃ dl, s.procs.reader = .waiting dl)
    (fun s => (timeout.toNat - s.now) + remaining s.procs)
    (fun e s s' hi hs => read_ideal_step net url timeout e s s' hi hs)
    evs (init timeout) s (read_ideal_init net url timeout) h
  refine ⟨hinv, ?_, ?_⟩
  · intro dl hdl
    have hle := (hinv.2.1 dl hdl).1
    exact ⟨hle, read_can_step net url timeout s (read_not_crashed net url timeout s hinv.1 hle hd)⟩
  · intro hlen
    cases hrd : s.procs.reader with
    | returned x => exact ⟨x, rfl⟩
    | waiting dl =>
      have := (hm ⟨dl, hrd⟩).2
      simp only [init, start, remaining, hrd] at this
      omega

/-- Once the body of `Read` has its result, it keeps it, under any scheduler. -/
theorem read_result_kept (net : Net) (url : String) (timeout : Int) (evs : List Event)
    (s s' : State) (x : Response) (h : runWith (step net url timeout) evs s = some s')
    (hx : s.procs.reader = .returned x) : s'.procs.reader = .returned x := by
  induction evs generalizing s with
  | nil =>
    simp only [runWith, Option.some.injEq] at h
    subst h
    exact hx
  | cons e es ih =>
    simp only [runWith] at h
    cases hs : step net url timeout e s with
    | none => simp [hs] at h
    | some t =>
      rw [hs] at h
      refine ih t h ?_
      obtain ⟨-, ⟨-, rfl⟩ | ⟨a, p', -, hact, rfl⟩⟩ := read_step_cases net url timeout e s t hs
      · exact hx
      · exact act_reader_returned net url timeout s.now a s.procs p' x hact hx

/-- C4, as amended. A call `Read(url, timeout)` under the scheduler without slack. Whatever
the body returns is the response of `Get(url)`, which then came by the deadline, or the
sentinel with status 504, and then `Get(url)` did not come before the deadline; the result,
once there, stays. When `Get(url)` completes with `r` strictly before the deadline the result
is `r` as it is; when `Get(url)` never completes or completes only after the deadline the
result is the sentinel. And unless `Get(url)` ends the process with `log.Fatalf` by the
deadline, `Read` does return: while the body waits the deadline has not passed and some event
can happen, and after `timeout + 3` events the body has returned (this covers a `Get` that
completes exactly at the deadline, where either of the two outcomes can be the result). -/
theorem read_outcome (net : Net) (url : String) (timeout : Int) (evs : List Event) (s : State)
    (h : runWith (idealStep net url timeout) evs (init timeout) = some s) :
    (∀ x, s.procs.reader = .returned x →
      ((∃ d, Answers net url d x ∧ d ≤ timeout.toNat) ∨
       (x = gatewayTimeout ∧ x.StatusCode = 504 ∧
         ∀ d, (net url).delay = some d → timeout.toNat ≤ d)) ∧
      ∀ (more : List Event) (s2 : State),
        runWith (step net url timeout) more s = some s2 → s2.procs.reader = .returned x) ∧
    (∀ d r, Answers net url d r → d < timeout.toNat →
      ∀ x, s.procs.reader = .returned x → x = r) ∧
    (((net url).delay = none ∨ ∃ d, (net url).delay = some d ∧ timeout.toNat < d) →
      ∀ x, s.procs.reader = .returned x → x = gatewayTimeout) ∧
    (¬ DiesBy net url timeout.toNat →
      (∀ dl, s.procs.reader = .waiting dl →
        s.now ≤ timeout.toNat ∧ ∃ e s', idealStep net url timeout e s = some s') ∧
      (timeout.toNat + 3 ≤ evs.length → ∃ x, s.procs.reader = .returned x)) := by
  obtain ⟨⟨-, hi⟩, -⟩ := runWith_measure (idealStep net url timeout)
    (fun s => Good net url timeout s.now s.procs ∧ Ideal net url timeout s)
    (fun s => ∃ dl, s.procs.reader = .waiting dl)
    (fun s => (timeout.toNat - s.now) + remaining s.procs)
    (fun e s s' hi hs => read_ideal_step net url timeout e s s' hi hs)
    evs (init timeout) s (read_ideal_init net url timeout) h
  refine ⟨?_, ?_, ?_, ?_⟩
  · intro x hx
    refine ⟨?_, fun more s2 h2 => read_result_kept net url timeout more s s2 x h2 hx⟩
    rcases hi.2 x hx with hans | ⟨hx', hT⟩
    · exact Or.inl hans
    · refine Or.inr ⟨hx', ?_, hT⟩
      rw [hx']
      rfl
  · intro d r hans hlt x hx
    rcases hi.2 x hx with ⟨d', hans', -⟩ | ⟨-, hT⟩
    · exact (answers_unique net url d' d x r hans' hans).2
    · have := hT d hans.1
      omega
  · intro hlate x hx
    rcases hi.2 x hx with ⟨d', hans', hle⟩ | ⟨hx', -⟩
    · rcases hlate with hn | ⟨d, hd, hlt⟩
      · rw [hans'.1] at hn
        simp at hn
      · rw [hans'.1] at hd
        simp only [Option.some.injEq] at hd
        omega
    · exact hx'
  · intro hd
    obtain ⟨-, hw, hlen⟩ := read_returns net url timeout evs s hd h
    exact ⟨hw, hlen⟩

theorem read_outcome_witness :
    runWith (idealStep twoGood "a" 5) [.tick, .act .getReturns, .act .handoff] (init 5) =
      some ⟨1, ⟨.exited, .returned ⟨"A", 200⟩⟩⟩ ∧
    ∀ x, (State.mk 1 ⟨.exited, .returned ⟨"A", 200⟩⟩).procs.reader = .returned x →
      x = ⟨"A", 200⟩ :=
  ⟨by decide,
   (read_outcome twoGood "a" 5 [.tick, .act .getReturns, .act .handoff]
      ⟨1, ⟨.exited, .returned ⟨"A", 200⟩⟩⟩ (by decide)).2.1 1 ⟨"A", 200⟩
      ⟨by decide, rfl⟩ (by decide)⟩

theorem read_dead_stuck (e : Event) : step dying "u" 1 e dead = none := by
  have hc : crashed dead.procs = true := by decide
  simp [step, hc]

/-- From the start against `dying`, the only event the scheduler without slack allows a call
of `Read` is `log.Fatalf` in the call of `Get`. -/
theorem read_dying_first (e : Event) (t : State)
    (h : idealStep dying "u" 1 e (init 1) = some t) : t = dead := by
  cases e with
  | tick =>
    have : idealStep dying "u" 1 .tick (init 1) = none := by decide
    rw [this] at h
    simp at h
  | act a =>
    cases a
    · have : idealStep dying "u" 1 (.act .getReturns) (init 1) = some dead := by decide
      rw [this] at h
      simpa using h.symm
    · have : idealStep dying "u" 1 (.act .handoff) (init 1) = none := by decide
      rw [this] at h
      simp at h
    · have : idealStep dying "u" 1 (.act .giveUp) (init 1) = none := by decide
      rw [this] at h
      simp at h
    · have : idealStep dying "u" 1 (.act .timeout) (init 1) = none := by decide
      rw [this] at h
      simp at h

/-- C4 as stated fails. A url whose response body cannot be read, timeout 1: the call of
`Get` runs into `log.Fatalf` at instant 0, before the timer fires; after it nothing can
happen any more, with the body of `Read` still in its `select`; and under the scheduler
without slack no run at all ends with `Read` returned: it resolves to neither outcome. -/
theorem read_outcome_counterexample :
    runWith (idealStep dying "u" 1) [.act .getReturns] (init 1) = some dead ∧
    dead.procs.reader = .waiting 1 ∧
    (∀ e : Event, step dying "u" 1 e dead = none) ∧
    ¬ ∃ (evs : List Event) (s : State) (x : Response),
        runWith (idealStep dying "u" 1) evs (init 1) = some s ∧
        s.procs.reader = .returned x := by
  refine ⟨by decide, rfl, read_dead_stuck, ?_⟩
  rintro ⟨evs, s, x, h, hx⟩
  cases evs with
  | nil =>
    simp only [runWith, Option.some.injEq] at h
    subst h
    simp [init, start] at hx
  | cons e rest =>
    simp only [runWith] at h
    cases hs : idealStep dying "u" 1 e (init 1) with
    | none => simp [hs] at h
    | some t =>
      rw [hs] at h
      have ht := read_dying_first e t hs
      subst ht
      cases rest with
      | nil =>
        simp only [Option.some_bind, runWith, Option.some.injEq] at h
        subst h
        simp [dead] at hx
      | cons b rest' =>
        have hb : idealStep dying "u" 1 b dead = none := by
          cases b with
          | tick =>
            simp only [idealStep]
            split
            · exact read_dead_stuck .tick
            · rfl
          | act a => exact read_dead_stuck (.act a)
        simp [runWith, hb] at h

end Read

/-! ## lab9/client.go: one call of `MultiRead` -/

namespace MultiRead

/-- What an event of `MultiRead` that happens was, and what it did. -/
theorem step_cases (net : Net) (timeout : Int) (a : Action) (s s' : State)
    (h : step net timeout a s = some s') :
    crashed s = false ∧
    ((a = .tick ∧ s' = ⟨s.now + 1, s.workers, s.caller⟩) ∨
     (∃ i w ra p', a = .read i ra ∧ s.workers[i]? = some w ∧
        Read.act net w.url timeout s.now ra w.read = some p' ∧
        s' = ⟨s.now, s.workers.set i ⟨w.url, p', w.outer⟩, s.caller⟩) ∨
     (∃ i w x, a = .check i ∧ s.workers[i]? = some w ∧ w.outer = .inRead ∧
        w.read.reader = .returned x ∧
        s' = ⟨s.now, s.workers.set i
          ⟨w.url, w.read, if x.StatusCode = 200 then .sending x else .exited⟩, s.caller⟩) ∨
     (∃ i w y dl, a = .deliver i ∧ s.workers[i]? = some w ∧ w.outer = .sending y ∧
        s.caller = .waiting dl ∧
        s' = ⟨s.now, s.workers.set i ⟨w.url, w.read, .exited⟩, .returned y⟩) ∨
     (∃ dl, a = .timeout ∧ s.caller = .waiting dl ∧ dl ≤ s.now ∧
        s' = ⟨s.now, s.workers, .returned serviceUnavailable⟩)) := by
  unfold step at h
  split at h
  · simp at h
  · rename_i hc
    refine ⟨by simpa using hc, ?_⟩
    cases a with
    | tick => exact Or.inl ⟨rfl, by simpa using h.symm⟩
    | read i ra =>
      right; left
      simp only at h
      split at h
      · simp at h
      · rename_i w hw
        simp only [Option.map_eq_some'] at h
        obtain ⟨p', hp, rfl⟩ := h
        exact ⟨i, w, ra, p', rfl, hw, hp, rfl⟩
    | check i =>
      right; right; left
      simp only at h
      split at h
      · simp at h
      · rename_i w hw
        split at h
        · rename_i x ho hr
          refine ⟨i, w, x, rfl, hw, ho, hr, ?_⟩
          split at h
          · rename_i h200
            simp only [Option.some.injEq] at h
            simp [← h, h200]
          · rename_i h200
            simp only [Option.some.injEq] at h
            simp [← h, h200]
        · simp at h
    | deliver i =>
      right; right; right; left
      simp only at h
      split at h
      · simp at h
      · rename_i w hw
        split at h
        · rename_i y dl ho hcl
          simp only [Option.some.injEq] at h
          exact ⟨i, w, y, dl, rfl, hw, ho, hcl, h.symm⟩
        · simp at h
    | timeout =>
      right; right; right; right
      simp only at h
      split at h
      · rename_i dl hcl
        split at h
        · rename_i hle
          simp only [Option.some.injEq] at h
          exact ⟨dl, rfl, hcl, hle, h.symm⟩
        · simp at h
      · simp at h

theorem idealStep_step (net : Net) (timeout : Int) (a : Action) (s s' : State)
    (h : idealStep net timeout a s = some s') :
    step net timeout a s = some s' ∧ (a = .tick → quiet net timeout s = true) := by
  cases a with
  | tick =>
    simp only [idealStep] at h
    split at h
    · rename_i hq
      exact ⟨h, fun _ => hq⟩
    · simp at h
  | _ => exact ⟨h, by simp⟩

theorem map_url_set (l : List Worker) (i : Nat) (w w' : Worker) (h : l[i]? = some w)
    (hu : w'.url = w.url) : (l.set i w').map (fun w => w.url) = l.map (fun w => w.url) := by
  induction l generalizing i with
  | nil => simp
  | cons x xs ih =>
    cases i with
    | zero =>
      simp only [List.getElem?_cons_zero, Option.some.injEq] at h
      subst h
      simp [hu]
    | succ n =>
      simp only [List.getElem?_cons_succ] at h
      simp [ih n h]

theorem wgood_mono (net : Net) (timeout : Int) (now now' : Nat) (q : Prop) (w : Worker)
    (h : WGood net timeout now q w) (hle : now ≤ now') : WGood net timeout now' q w :=
  ⟨Read.good_mono net w.url timeout now now' w.read h.1 hle, h.2.1, h.2.2⟩

theorem wgood_weaken (net : Net) (timeout : Int) (now : Nat) (q q' : Prop) (w : Worker)
    (h : WGood net timeout now q w) (hq : q' → q) : WGood net timeout now q' w := by
  refine ⟨h.1, h.2.1, fun he => ?_⟩
  obtain ⟨x, hx, hs⟩ := h.2.2 he
  exact ⟨x, hx, fun hq' => hs (hq hq')⟩

theorem good_init (net : Net) (urls : List String) (timeout : Int) :
    Good net urls timeout (init urls timeout) := by
  refine ⟨?_, ?_, ?_, ?_⟩
  · simp [init, Function.comp_def]
  · intro w hw
    simp only [init, List.mem_map] at hw
    obtain ⟨u, -, rfl⟩ := hw
    exact ⟨Read.good_start net u timeout, by simp, by simp⟩
  · intro dl hdl
    simp only [init, Caller.waiting.injEq] at hdl
    simp [← hdl, deadlineAfter]
  · simp [init]

theorem good_step (net : Net) (urls : List String) (timeout : Int) (a : Action)
    (s s' : State) (hg : Good net urls timeout s) (h : step net timeout a s = some s') :
    Good net urls timeout s' := by
  obtain ⟨hu, hw, hc, hr⟩ := hg
  obtain ⟨-, ⟨-, rfl⟩ | ⟨i, w, ra, p', -, hi, hact, rfl⟩ | ⟨i, w, x, -, hi, ho, hrd, rfl⟩ |
    ⟨i, w, y, dl, -, hi, ho, hcl, rfl⟩ | ⟨dl, -, hcl, hle, rfl⟩⟩ :=
    step_cases net timeout a s s' h
  · exact ⟨hu, fun w hm => wgood_mono net timeout s.now (s.now + 1) _ w (hw w hm) (by omega),
      hc, hr⟩
  · have hmem : w ∈ s.workers := List.mem_iff_getElem?.mpr ⟨i, hi⟩
    refine ⟨by rw [← hu]; exact map_url_set _ i w _ hi rfl, ?_, hc, hr⟩
    intro w' hm
    rcases List.mem_or_eq_of_mem_set hm with hm | rfl
    · exact hw w' hm
    · obtain ⟨h1, h2, h3⟩ := hw w hmem
      refine ⟨Read.good_act net w.url timeout s.now ra w.read p' h1 hact, ?_, ?_⟩
      · intro y hy
        obtain ⟨hy1, hy2⟩ := h2 y hy
        exact ⟨Read.act_reader_returned net w.url timeout s.now ra w.read p' y hact hy1, hy2⟩
      · intro he
        obtain ⟨x, hx, hs⟩ := h3 he
        exact ⟨x, Read.act_reader_returned net w.url timeout s.now ra w.read p' x hact hx, hs⟩
  · have hmem : w ∈ s.workers := List.mem_iff_getElem?.mpr ⟨i, hi⟩
    refine ⟨by rw [← hu]; exact map_url_set _ i w _ hi rfl, ?_, hc, hr⟩
    intro w' hm
    rcases List.mem_or_eq_of_mem_set hm with hm | rfl
    · exact hw w' hm
    · obtain ⟨h1, h2, h3⟩ := hw w hmem
      refine ⟨h1, ?_, ?_⟩
      · intro y hy
        by_cases h200 : x.StatusCode = 200
        · simp only [h200, if_true, Outer.sending.injEq] at hy
          subst hy
          exact ⟨hrd, h200⟩
        · simp [h200] at hy
      · intro he
        by_cases h200 : x.StatusCode = 200
        · simp [h200] at he
        · exact ⟨x, hrd, fun _ => h200⟩
  · have hmem : w ∈ s.workers := List.mem_iff_getElem?.mpr ⟨i, hi⟩
    obtain ⟨h1, h2, h3⟩ := hw w hmem
    obtain ⟨hy1, hy2⟩ := h2 y ho
    refine ⟨by rw [← hu]; exact map_url_set _ i w _ hi rfl, ?_, by simp, ?_⟩
    · intro w' hm
      rcases List.mem_or_eq_of_mem_set hm with hm | rfl
      · exact wgood_weaken net timeout s.now _ _ w' (hw w' hm) (by simp)
      · exact ⟨h1, by simp, fun _ => ⟨y, hy1, by simp⟩⟩
    · intro x hx
      simp only [Caller.returned.injEq] at hx
      subst hx
      right
      refine ⟨hy2, w.url, ?_, ?_⟩
      · rw [← hu]
        exact List.mem_map_of_mem _ hmem
      · rcases h1.2.2.1 y hy1 with ⟨d, hans, -⟩ | ⟨rfl, -⟩
        · exact ⟨d, hans⟩
        · simp [gatewayTimeout] at hy2
  · refine ⟨hu, ?_, by simp, ?_⟩
    · intro w' hm
      exact wgood_weaken net timeout s.now _ _ w' (hw w' hm) (by simp)
    · intro x hx
      simp only [Caller.returned.injEq] at hx
      exact Or.inl hx.symm

theorem quiet_timeout (net : Net) (timeout : Int) (s : State)
    (hq : quiet net timeout s = true) : step net timeout .timeout s = none := by
  simp only [quiet, statements, List.all_eq_true] at hq
  simpa using hq .timeout (by simp)

theorem quiet_worker (net : Net) (timeout : Int) (s : State)
    (hq : quiet net timeout s = true) (i : Nat) (hi : i < s.workers.length) (a : Action)
    (ha : a ∈ workerActions i) : step net timeout a s = none := by
  simp only [quiet, statements, List.all_eq_true] at hq
  have hmem : a ∈ Action.timeout :: (List.range s.workers.length).flatMap workerActions :=
    List.mem_cons_of_mem _ (List.mem_flatMap.mpr ⟨i, List.mem_range.mpr hi, ha⟩)
  simpa using hq a hmem

theorem not_crashed_worker (s : State) (hc : crashed s = false) (w : Worker)
    (hw : w ∈ s.workers) : Read.crashed w.read = false := by
  simp only [crashed, List.any_eq_false] at hc
  simpa using hc w hw

theorem step_read (net : Net) (timeout : Int) (s : State) (hc : crashed s = false) (i : Nat)
    (w : Worker) (hi : s.workers[i]? = some w) (ra : Read.Action) :
    step net timeout (.read i ra) s =
      (Read.act net w.url timeout s.now ra w.read).map fun p =>
        { s with workers := s.workers.set i { w with read := p } } := by
  simp [step, hc, hi]

theorem step_check_isSome (net : Net) (timeout : Int) (s : State) (hc : crashed s = false)
    (i : Nat) (w : Worker) (hi : s.workers[i]? = some w) (x : Response)
    (ho : w.outer = .inRead) (hr : w.read.reader = .returned x) :
    (step net timeout (.check i) s).isSome = true := by
  simp only [step, hc, hi, ho, hr]
  by_cases h200 : x.StatusCode = 200 <;> simp [h200]

theorem step_deliver_isSome (net : Net) (timeout : Int) (s : State) (hc : crashed s = false)
    (i : Nat) (w : Worker) (hi : s.workers[i]? = some w) (y : Response) (dl : Nat)
    (ho : w.outer = .sending y) (hcl : s.caller = .waiting dl) :
    (step net timeout (.deliver i) s).isSome = true := by
  simp [step, hc, hi, ho, hcl]

theorem step_timeout_isSome (net : Net) (timeout : Int) (s : State) (hc : crashed s = false)
    (dl : Nat) (hcl : s.caller = .waiting dl) (hle : dl ≤ s.now) :
    (step net timeout .timeout s).isSome = true := by
  simp [step, hc, hcl, hle]

/-- While the caller waits and the scheduler without slack lets time pass, its deadline and
every answer with status 200 lie strictly ahead. -/
theorem quiet_ahead (net : Net) (urls : List String) (timeout : Int) (s : State) (dl : Nat)
    (hg : Good net urls timeout s) (hq : quiet net timeout s = true)
    (hc : crashed s = false) (hcl : s.caller = .waiting dl) :
    s.now < timeout.toNat ∧
    ∀ u ∈ urls, ∀ d r, Answers net u d r → r.StatusCode = 200 → d ≠ s.now := by
  obtain ⟨hu, hw, hcw, -⟩ := hg
  have hT := hcw dl hcl
  have hlt : s.now < timeout.toNat := by
    by_contra hcon
    have := step_timeout_isSome net timeout s hc dl hcl (by omega)
    rw [quiet_timeout net timeout s hq] at this
    simp at this
  refine ⟨hlt, ?_⟩
  intro u hmem d r hans h200 hdn
  rw [← hu, List.mem_map] at hmem
  obtain ⟨w, hwm, rfl⟩ := hmem
  obtain ⟨i, hi⟩ := List.mem_iff_getElem?.mp hwm
  have hilt : i < s.workers.length := by
    obtain ⟨hlt', -⟩ := List.getElem?_eq_some.mp hi
    exact hlt'
  have hnone : ∀ a ∈ workerActions i, step net timeout a s = none :=
    fun a ha => quiet_worker net timeout s hq i hilt a ha
  have hact : ∀ ra, Read.act net w.url timeout s.now ra w.read = none := by
    intro ra
    have := hnone (.read i ra) (by cases ra <;> simp [workerActions])
    rw [step_read net timeout s hc i w hi ra] at this
    simpa using this
  obtain ⟨h1, h2, h3⟩ := hw w hwm
  have hrc := not_crashed_worker s hc w hwm
  cases hrd : w.read.reader with
  | waiting dl' =>
    exact (Read.stuck_waiting net w.url timeout s.now w.read dl' h1 hact hrc hrd).2 d hans.1 hdn
  | returned x =>
    have hx : x = r := by
      rcases h1.2.2.1 x hrd with ⟨d', hans', -⟩ | ⟨-, hle⟩
      · exact (answers_unique net w.url d' d x r hans' hans).2
      · omega
    subst hx
    cases ho : w.outer with
    | inRead =>
      have := step_check_isSome net timeout s hc i w hi x ho hrd
      rw [hnone (.check i) (by simp [workerActions])] at this
      simp at this
    | sending y =>
      have := step_deliver_isSome net timeout s hc i w hi y dl ho hcl
      rw [hnone (.deliver i) (by simp [workerActions])] at this
      simp at this
    | exited =>
      obtain ⟨x', hx', hs⟩ := h3 ho
      rw [hrd] at hx'
      simp only [Read.Reader.returned.injEq] at hx'
      subst hx'
      exact hs ⟨dl, hcl⟩ h200

theorem sum_set_lt (l : List Worker) (i : Nat) (w w' : Worker) (h : l[i]? = some w)
    (hlt : remaining w' < remaining w) :
    ((l.set i w').map remaining).sum < (l.map remaining).sum := by
  induction l generalizing i with
  | nil => simp at h
  | cons x xs ih =>
    cases i with
    | zero =>
      simp only [List.getElem?_cons_zero, Option.some.injEq] at h
      subst h
      simp only [List.set_cons_zero, List.map_cons, List.sum_cons]
      omega
    | succ n =>
      simp only [List.getElem?_cons_succ] at h
      have := ih n h
      simp only [List.set_cons_succ, List.map_cons, List.sum_cons]
      omega

theorem ideal_init (net : Net) (urls : List String) (timeout : Int) :
    Good net urls timeout (init urls timeout) ∧ Ideal net urls timeout (init urls timeout) := by
  refine ⟨good_init net urls timeout, ?_, ?_⟩
  · intro dl _
    simp [init]
  · simp [init]

theorem ideal_step (net : Net) (urls : List String) (timeout : Int) (a : Action)
    (s s' : State) (hinv : Good net urls timeout s ∧ Ideal net urls timeout s)
    (h : idealStep net timeout a s = some s') :
    (Good net urls timeout s' ∧ Ideal net urls timeout s') ∧
    ((∃ dl, s'.caller = .waiting dl) →
      (∃ dl, s.caller = .waiting dl) ∧ measure timeout s' < measure timeout s) := by
  obtain ⟨hg, hw, hr⟩ := hinv
  obtain ⟨hstep, hquiet⟩ := idealStep_step net timeout a s s' h
  have hg' := good_step net urls timeout a s s' hg hstep
  refine ⟨⟨hg', ?_⟩, ?_⟩
  · -- the invariant of the scheduler without slack
    obtain ⟨hc, ⟨rfl, rfl⟩ | ⟨i, w, ra, p', -, hi, hact, rfl⟩ | ⟨i, w, x, -, hi, ho, hrd, rfl⟩ |
      ⟨i, w, y, dl, -, hi, ho, hcl, rfl⟩ | ⟨dl, -, hcl, hle, rfl⟩⟩ :=
      step_cases net timeout a s s' hstep
    · refine ⟨?_, hr⟩
      intro dl hdl
      obtain ⟨hlt, hne⟩ := quiet_ahead net urls timeout s dl hg (hquiet rfl) hc hdl
      refine ⟨by simp only; omega, ?_⟩
      intro u hu d r hans h200
      have := (hw dl hdl).2 u hu d r hans h200
      have := hne u hu d r hans h200
      simp only
      omega
    · exact ⟨hw, hr⟩
    · exact ⟨hw, hr⟩
    · refine ⟨by simp, ?_⟩
      intro x hx
      simp only [Caller.returned.injEq] at hx
      have hxy : x = y := hx.symm
      subst hxy
      left
      have hmem : w ∈ s.workers := List.mem_iff_getElem?.mpr ⟨i, hi⟩
      obtain ⟨h1, h2, -⟩ := hg.2.1 w hmem
      obtain ⟨hy1, hy2⟩ := h2 x ho
      obtain ⟨hnow, hmin⟩ := hw dl hcl
      rcases h1.2.2.1 x hy1 with ⟨d, hans, hdn⟩ | ⟨rfl, -⟩
      · refine ⟨w.url, ?_, d, hans, hy2, by omega, ?_⟩
        · rw [← hg.1]
          exact List.mem_map_of_mem _ hmem
        · intro u' hu' d' r' hans' h200
          have := hmin u' hu' d' r' hans' h200
          omega
      · simp [gatewayTimeout] at hy2
    · refine ⟨by simp, ?_⟩
      intro x hx
      simp only [Caller.returned.injEq] at hx
      subst hx
      right
      refine ⟨rfl, ?_⟩
      intro u hu d r hans h200
      have := (hw dl hcl).2 u hu d r hans h200
      have := hg.2.2.1 dl hcl
      omega
  · -- the measure
    rintro ⟨dl0, hdl0⟩
    obtain ⟨hc, ⟨rfl, rfl⟩ | ⟨i, w, ra, p', -, hi, hact, rfl⟩ | ⟨i, w, x, -, hi, ho, hrd, rfl⟩ |
      ⟨i, w, y, dl, -, hi, ho, hcl, rfl⟩ | ⟨dl, -, hcl, hle, rfl⟩⟩ :=
      step_cases net timeout a s s' hstep
    · simp only at hdl0
      obtain ⟨hlt, -⟩ := quiet_ahead net urls timeout s dl0 hg (hquiet rfl) hc hdl0
      refine ⟨⟨dl0, hdl0⟩, ?_⟩
      simp only [measure]
      omega
    · simp only at hdl0
      refine ⟨⟨dl0, hdl0⟩, ?_⟩
      have := sum_set_lt s.workers i w ⟨w.url, p', w.outer⟩ hi (by
        have := Read.act_remaining net w.url timeout s.now ra w.read p' hact
        simp only [remaining]
        omega)
      simp only [measure]
      omega
    · simp only at hdl0
      refine ⟨⟨dl0, hdl0⟩, ?_⟩
      have := sum_set_lt s.workers i w
        ⟨w.url, w.read, if x.StatusCode = 200 then .sending x else .exited⟩ hi (by
        by_cases h200 : x.StatusCode = 200 <;> simp [remaining, ho, h200])
      simp only [measure]
      omega
    · simp at hdl0
    · simp at hdl0

theorem can_step (net : Net) (timeout : Int) (s : State) (hc : crashed s = false) :
    ∃ a s', idealStep net timeout a s = some s' := by
  by_cases hq : quiet net timeout s = true
  · exact ⟨.tick, ⟨s.now + 1, s.workers, s.caller⟩, by simp [idealStep, hq, step, hc]⟩
  · simp only [quiet, List.all_eq_true, not_forall] at hq
    obtain ⟨a, hmem, ha⟩ := hq
    cases hs : step net timeout a s with
    | none => simp [hs] at ha
    | some s' =>
      refine ⟨a, s', ?_⟩
      cases a with
      | tick =>
        simp only [statements, List.mem_cons, List.mem_flatMap, workerActions] at hmem
        simp at hmem
      | _ => simpa [idealStep] using hs

theorem not_crashed (net : Net) (urls : List String) (timeout : Int) (s : State)
    (hg : Good net urls timeout s) (hle : s.now ≤ timeout.toNat)
    (hd : ∀ u ∈ urls, ¬ DiesBy net u timeout.toNat) : crashed s = false := by
  simp only [crashed, List.any_eq_false]
  intro w hw
  cases hgt : w.read.getter with
  | fatal msg =>
    obtain ⟨d, m, h1, h2, h3⟩ := (hg.2.1 w hw).1.2.2.2.2 msg hgt
    have hu : w.url ∈ urls := by
      rw [← hg.1]
      exact List.mem_map_of_mem _ hw
    exact absurd ⟨d, m, h1, by omega, h3⟩ (hd w.url hu)
  | _ => simp [Read.crashed, hgt]

theorem measure_init (urls : List String) (timeout : Int) :
    measure timeout (init urls timeout) = timeout.toNat + 5 * urls.length := by
  have : ∀ l : List String,
      ((l.map fun url => (⟨url, Read.start 0 timeout, .inRead⟩ : Worker)).map remaining).sum
        = 5 * l.length := by
    intro l
    induction l with
    | nil => simp
    | cons u us ih =>
      simp only [List.map_cons, List.sum_cons, ih, List.length_cons]
      simp only [remaining, Read.remaining, Read.start]
      omega
  simp only [measure, init, this]
  omega

/-- Under the scheduler without slack, unless `log.Fatalf` strikes by the deadline: the
caller of `MultiRead` never waits past its deadline, is never stuck while it waits, and has
returned in every run of `timeout + 5 * len(urls) + 1` events. -/
theorem caller_returns (net : Net) (urls : List String) (timeout : Int) (acts : List Action)
    (s : State) (hd : ∀ u ∈ urls, ¬ DiesBy net u timeout.toNat)
    (h : runWith (idealStep net timeout) acts (init urls timeout) = some s) :
    (Good net urls timeout s ∧ Ideal net urls timeout s) ∧
    (∀ dl, s.caller = .waiting dl →
      s.now ≤ timeout.toNat ∧ ∃ a s', idealStep net timeout a s = some s') ∧
    (timeout.toNat + 5 * urls.length + 1 ≤ acts.length → ∃ x, s.caller = .returned x) := by
  obtain ⟨hinv, hm⟩ := runWith_measure (idealStep net timeout)
    (fun s => Good net urls timeout s ∧ Ideal net urls timeout s)
    (fun s => ∃ dl, s.caller = .waiting dl) (measure timeout)
    (fun a s s' hi hs => ideal_step net urls timeout a s s' hi hs)
    acts (init urls timeout) s (ideal_init net urls timeout) h
  refine ⟨hinv, ?_, ?_⟩
  · intro dl hdl
    have hle := (hinv.2.1 dl hdl).1
    exact ⟨hle, can_step net timeout s (not_crashed net urls timeout s hinv.1 hle hd)⟩
  · intro hlen
    cases hcl : s.caller with
    | returned x => exact ⟨x, rfl⟩
    | waiting dl =>
      have := (hm ⟨dl, hcl⟩).2
      rw [measure_init] at this
      omega

/-- Every run of the scheduler without slack is a run of the scheduler with slack. -/
theorem ideal_run (net : Net) (timeout : Int) (acts : List Action) (s s' : State)
    (h : runWith (idealStep net timeout) acts s = some s') :
    runWith (step net timeout) acts s = some s' := by
  induction acts generalizing s with
  | nil => simpa [runWith] using h
  | cons a as ih =>
    simp only [runWith] at h ⊢
    cases hs : idealStep net timeout a s with
    | none => simp [hs] at h
    | some t =>
      rw [hs] at h
      rw [(idealStep_step net timeout a s t hs).1]
      exact ih t h

theorem good_run (net : Net) (urls : List String) (timeout : Int) (acts : List Action)
    (s : State) (h : runWith (step net timeout) acts (init urls timeout) = some s) :
    Good net urls timeout s :=
  (runWith_measure (step net timeout) (Good net urls timeout) (fun _ => False) (fun _ => 0)
    (fun a s s' hi hs => ⟨good_step net urls timeout a s s' hi hs, fun hf => hf.elim⟩)
    acts (init urls timeout) s (good_init net urls timeout) h).1

/-- Once the caller has returned, it has returned for good, and a worker blocked in
`done <- response` stays blocked there: nobody receives on `done` any more. -/
theorem after_return (net : Net) (timeout : Int) (a : Action) (s s' : State) (x : Response)
    (h : step net timeout a s = some s') (hx : s.caller = .returned x) :
    s'.caller = .returned x ∧
    ∀ (i : Nat) (w : Worker) (y : Response), s.workers[i]? = some w → w.outer = .sending y →
      ∃ w' : Worker, s'.workers[i]? = some w' ∧ w'.outer = .sending y := by
  obtain ⟨-, ⟨-, rfl⟩ | ⟨j, v, ra, p', -, hj, hact, rfl⟩ | ⟨j, v, z, -, hj, ho, hrd, rfl⟩ |
    ⟨j, v, z, dl, -, hj, ho, hcl, rfl⟩ | ⟨dl, -, hcl, hle, rfl⟩⟩ :=
    step_cases net timeout a s s' h
  · exact ⟨hx, fun i w y hi hs => ⟨w, hi, hs⟩⟩
  · refine ⟨hx, fun i w y hi hs => ?_⟩
    by_cases hij : j = i
    · subst hij
      rw [hj] at hi
      simp only [Option.some.injEq] at hi
      subst hi
      have hlt : j < s.workers.length := (List.getElem?_eq_some.mp hj).1
      exact ⟨⟨v.url, p', v.outer⟩, by simp [List.getElem?_set, hlt], hs⟩
    · exact ⟨w, by simpa [List.getElem?_set_ne hij] using hi, hs⟩
  · refine ⟨hx, fun i w y hi hs => ?_⟩
    by_cases hij : j = i
    · subst hij
      rw [hj] at hi
      simp only [Option.some.injEq] at hi
      subst hi
      rw [ho] at hs
      simp at hs
    · exact ⟨w, by simpa [List.getElem?_set_ne hij] using hi, hs⟩
  · rw [hcl] at hx
    simp at hx
  · rw [hcl] at hx
    simp at hx

theorem after_return_run (net : Net) (timeout : Int) (acts : List Action) (s s' : State)
    (x : Response) (h : runWith (step net timeout) acts s = some s')
    (hx : s.caller = .returned x) :
    s'.caller = .returned x ∧
    ∀ (i : Nat) (w : Worker) (y : Response), s.workers[i]? = some w → w.outer = .sending y →
      ∃ w' : Worker, s'.workers[i]? = some w' ∧ w'.outer = .sending y := by
  induction acts generalizing s with
  | nil =>
    simp only [runWith, Option.some.injEq] at h
    subst h
    exact ⟨hx, fun i w y hi hs => ⟨w, hi, hs⟩⟩
  | cons a as ih =>
    simp only [runWith] at h
    cases hs : step net timeout a s with
    | none => simp [hs] at h
    | some t =>
      rw [hs] at h
      obtain ⟨hxt, hwt⟩ := after_return net timeout a s t x hs hx
      obtain ⟨hx', hw'⟩ := ih t h hxt
      refine ⟨hx', fun i w y hi hsd => ?_⟩
      obtain ⟨w1, hi1, hs1⟩ := hwt i w y hi hsd
      exact hw' i w1 y hi1 hs1

/-- C1. `MultiRead(urls, timeout)` under the scheduler without slack, when every server
answers or stays silent and at least one answers 200 strictly before the deadline: the caller
returns (while it waits some event can happen, and after `timeout + 5 * len(urls) + 1` events
it has returned), and what it returns is the response of a server of the list that answers
200 and that no 200-answering server of the list precedes, however many servers answered
earlier with another status. -/
theorem multiRead_first_success (net : Net) (urls : List String) (timeout : Int)
    (acts : List Action) (s : State)
    (hall : ∀ u ∈ urls, (net u).delay = none ∨ ∃ d r, Answers net u d r)
    (hex : ∃ u ∈ urls, ∃ d r, Answers net u d r ∧ r.StatusCode = 200 ∧ d < timeout.toNat)
    (h : runWith (idealStep net timeout) acts (init urls timeout) = some s) :
    (∀ x, s.caller = .returned x →
      ∃ u ∈ urls, ∃ d, Answers net u d x ∧ x.StatusCode = 200 ∧
        ∀ u' ∈ urls, ∀ d' r', Answers net u' d' r' → r'.StatusCode = 200 → d ≤ d') ∧
    (∀ dl, s.caller = .waiting dl → ∃ a s', idealStep net timeout a s = some s') ∧
    (timeout.toNat + 5 * urls.length + 1 ≤ acts.length → ∃ x, s.caller = .returned x) := by
  have hd : ∀ u ∈ urls, ¬ DiesBy net u timeout.toNat := by
    rintro u hu ⟨d, msg, hd, -, he⟩
    rcases hall u hu with hn | ⟨d', r, -, hr⟩
    · rw [hn] at hd
      simp at hd
    · rw [hr] at he
      simp at he
  obtain ⟨⟨-, hi⟩, hw, hlen⟩ := caller_returns net urls timeout acts s hd h
  refine ⟨?_, fun dl hdl => (hw dl hdl).2, hlen⟩
  intro x hx
  rcases hi.2 x hx with ⟨u, hu, d, hans, h200, -, hmin⟩ | ⟨-, hnone⟩
  · exact ⟨u, hu, d, hans, h200, hmin⟩
  · obtain ⟨u, hu, d, r, hans, h200, hlt⟩ := hex
    have := hnone u hu d r hans h200
    omega

theorem multiRead_first_success_witness :
    (runWith (idealStep badThenGood 5) badThenGoodRun (init ["a", "b"] 5) =
      some ⟨2, [⟨"a", ⟨.exited, .returned ⟨"E", 500⟩⟩, .exited⟩,
                ⟨"b", ⟨.exited, .returned ⟨"B", 200⟩⟩, .exited⟩], .returned ⟨"B", 200⟩⟩ ∧
     ∃ u ∈ ["a", "b"], ∃ d, Answers badThenGood u d ⟨"B", 200⟩ ∧
      (⟨"B", 200⟩ : Response).StatusCode = 200 ∧
      ∀ u' ∈ ["a", "b"], ∀ d' r',
        Answers badThenGood u' d' r' → r'.StatusCode = 200 → d ≤ d') ∧
    (runWith (idealStep twoGood 5) twoGoodRun (init ["a", "b"] 5) =
      some ⟨1, [⟨"a", ⟨.exited, .returned ⟨"A", 200⟩⟩, .exited⟩,
                ⟨"b", ⟨.inGet, .waiting 5⟩, .inRead⟩], .returned ⟨"A", 200⟩⟩ ∧
     ∃ u ∈ ["a", "b"], ∃ d, Answers twoGood u d ⟨"A", 200⟩ ∧
      (⟨"A", 200⟩ : Response).StatusCode = 200 ∧
      ∀ u' ∈ ["a", "b"], ∀ d' r',
        Answers twoGood u' d' r' → r'.StatusCode = 200 → d ≤ d') :=
  ⟨⟨by decide,
    (multiRead_first_success badThenGood ["a", "b"] 5 badThenGoodRun
      ⟨2, [⟨"a", ⟨.exited, .returned ⟨"E", 500⟩⟩, .exited⟩,
           ⟨"b", ⟨.exited, .returned ⟨"B", 200⟩⟩, .exited⟩], .returned ⟨"B", 200⟩⟩
      (by
        intro u _
        right
        by_cases hu : u = "a"
        · exact ⟨0, ⟨"E", 500⟩, by simp [Answers, getOf, Get, badThenGood, hu]⟩
        · exact ⟨2, ⟨"B", 200⟩, by simp [Answers, getOf, Get, badThenGood, hu]⟩)
      ⟨"b", by simp, 2, ⟨"B", 200⟩, ⟨by decide, rfl⟩, rfl, by decide⟩
      (by decide)).1 ⟨"B", 200⟩ rfl⟩,
   ⟨by decide,
    (multiRead_first_success twoGood ["a", "b"] 5 twoGoodRun
      ⟨1, [⟨"a", ⟨.exited, .returned ⟨"A", 200⟩⟩, .exited⟩,
           ⟨"b", ⟨.inGet, .waiting 5⟩, .inRead⟩], .returned ⟨"A", 200⟩⟩
      (by
        intro u _
        right
        by_cases hu : u = "a"
        · exact ⟨1, ⟨"A", 200⟩, by simp [Answers, getOf, Get, twoGood, hu]⟩
        · exact ⟨2, ⟨"B", 200⟩, by simp [Answers, getOf, Get, twoGood, hu]⟩)
      ⟨"a", by simp, 1, ⟨"A", 200⟩, ⟨by decide, rfl⟩, rfl, by decide⟩
      (by decide)).1 ⟨"A", 200⟩ rfl⟩⟩

/-- C2. Under any scheduler, whatever `MultiRead` returns is either a response with status
200 that `Get` produced for one of the urls, or the synthesized 503 response; in particular
its status is 200 or 503, never 0 and never 504. -/
theorem multiRead_result (net : Net) (urls : List String) (timeout : Int)
    (acts : List Action) (s : State) (x : Response)
    (h : runWith (step net timeout) acts (init urls timeout) = some s)
    (hx : s.caller = .returned x) :
    ((x.StatusCode = 200 ∧ ∃ u ∈ urls, ∃ d, Answers net u d x) ∨ x = serviceUnavailable) ∧
    (x.StatusCode = 200 ∨ x.StatusCode = 503) ∧ x.StatusCode ≠ 0 ∧ x.StatusCode ≠ 504 := by
  have hg := good_run net urls timeout acts s h
  rcases hg.2.2.2 x hx with rfl | ⟨h200, hq⟩
  · exact ⟨Or.inr rfl, Or.inr rfl, by decide, by decide⟩
  · exact ⟨Or.inl ⟨h200, hq⟩, Or.inl h200, by omega, by omega⟩

theorem multiRead_result_witness :
    runWith (step twoGood 5) leakRun (init ["a", "b"] 5) = some leaked ∧
    (((⟨"A", 200⟩ : Response).StatusCode = 200 ∧
        ∃ u ∈ ["a", "b"], ∃ d, Answers twoGood u d ⟨"A", 200⟩) ∨
      (⟨"A", 200⟩ : Response) = serviceUnavailable) :=
  ⟨by decide,
   (multiRead_result twoGood ["a", "b"] 5 leakRun leaked ⟨"A", 200⟩ (by decide) rfl).1⟩

/-- C3, as amended. `MultiRead(urls, timeout)` under the scheduler without slack, when each
server of the list (which may be empty) never responds, or is due only strictly after the
deadline, or makes `Get` return a response with a status other than 200 (the status 0 of a
failed connection included): the caller returns, and what it returns is the 503 sentinel.
Left out are the server whose response body cannot be read by the deadline and the server
that answers 200 exactly at the deadline. -/
theorem multiRead_unavailable (net : Net) (urls : List String) (timeout : Int)
    (acts : List Action) (s : State)
    (hno : ∀ u ∈ urls, (net u).delay = none ∨
      (∃ d, (net u).delay = some d ∧ timeout.toNat < d) ∨
      (∃ d r, Answers net u d r ∧ r.StatusCode ≠ 200))
    (h : runWith (idealStep net timeout) acts (init urls timeout) = some s) :
    (∀ x, s.caller = .returned x → x = serviceUnavailable ∧ x.StatusCode = 503) ∧
    (∀ dl, s.caller = .waiting dl →
      s.now ≤ timeout.toNat ∧ ∃ a s', idealStep net timeout a s = some s') ∧
    (timeout.toNat + 5 * urls.length + 1 ≤ acts.length →
      s.caller = .returned serviceUnavailable) := by
  have hd : ∀ u ∈ urls, ¬ DiesBy net u timeout.toNat := by
    rintro u hu ⟨d, msg, hd, hle, he⟩
    rcases hno u hu with hn | ⟨d', hd', hlt⟩ | ⟨d', r, ⟨-, hr⟩, -⟩
    · rw [hn] at hd
      simp at hd
    · rw [hd'] at hd
      simp only [Option.some.injEq] at hd
      omega
    · rw [hr] at he
      simp at he
  obtain ⟨⟨-, hi⟩, hw, hlen⟩ := caller_returns net urls timeout acts s hd h
  have hsafe : ∀ x, s.caller = .returned x → x = serviceUnavailable := by
    intro x hx
    rcases hi.2 x hx with ⟨u, hu, d, hans, h200, hle, -⟩ | ⟨hx', -⟩
    · rcases hno u hu with hn | ⟨d', hd', hlt⟩ | ⟨d', r, hans', hne⟩
      · rw [hans.1] at hn
        simp at hn
      · rw [hans.1] at hd'
        simp only [Option.some.injEq] at hd'
        omega
      · rw [(answers_unique net u d d' x r hans hans').2] at h200
        exact absurd h200 hne
    · exact hx'
  refine ⟨fun x hx => ?_, hw, fun hl => ?_⟩
  · rw [hsafe x hx]
    exact ⟨rfl, rfl⟩
  · obtain ⟨x, hx⟩ := hlen hl
    rw [hx, hsafe x hx]

theorem multiRead_unavailable_witness :
    runWith (idealStep allBad 2) allBadRun (init ["u"] 2) =
      some ⟨2, [⟨"u", ⟨.exited, .returned ⟨"E", 500⟩⟩, .exited⟩],
        .returned ⟨"Service unavailable\n", 503⟩⟩ ∧
    (∀ (acts : List Action) (s : State),
      runWith (idealStep silent 7) acts (init [] 7) = some s →
        ∀ x, s.caller = .returned x → x = serviceUnavailable ∧ x.StatusCode = 503) ∧
    (⟨"Service unavailable\n", 503⟩ : Response) = serviceUnavailable ∧
    (⟨"Service unavailable\n", 503⟩ : Response).StatusCode = 503 :=
  ⟨by decide,
   fun acts s h => (multiRead_unavailable silent [] 7 acts s (by simp) h).1,
   (multiRead_unavailable allBad ["u"] 2 allBadRun
      ⟨2, [⟨"u", ⟨.exited, .returned ⟨"E", 500⟩⟩, .exited⟩],
        .returned ⟨"Service unavailable\n", 503⟩⟩
      (by
        intro u _
        right; right
        exact ⟨0, ⟨"E", 500⟩, ⟨rfl, rfl⟩, by decide⟩)
      (by decide)).1 ⟨"Service unavailable\n", 503⟩ rfl⟩

/-- C5, as amended. When its timer case is taken, `Read` returns exactly
`Response{"Gateway timeout\n", 504}` and `MultiRead` returns exactly
`Response{"Service unavailable\n", 503}`: each body ends with a newline. -/
theorem sentinels (net : Net) (url : String) (timeout : Int) (s s' : Read.State)
    (t t' : State)
    (hr : Read.step net url timeout (.act .timeout) s = some s')
    (hm : step net timeout .timeout t = some t') :
    s'.procs.reader = .returned ⟨"Gateway timeout\n", 504⟩ ∧
    t'.caller = .returned ⟨"Service unavailable\n", 503⟩ := by
  constructor
  · obtain ⟨-, ⟨he, -⟩ | ⟨a, p', he, hact, rfl⟩⟩ := Read.read_step_cases net url timeout _ s s' hr
    · simp at he
    · simp only [Read.Event.act.injEq] at he
      subst he
      rcases Read.act_cases net url timeout s.now .timeout s.procs p' hact with
        ⟨he, -⟩ | ⟨he, -⟩ | ⟨he, -⟩ | ⟨-, dl, -, -, rfl⟩
      · simp at he
      · simp at he
      · simp at he
      · rfl
  · obtain ⟨-, ⟨he, -⟩ | ⟨i, w, ra, p', he, -⟩ | ⟨i, w, x, he, -⟩ | ⟨i, w, y, dl, he, -⟩ |
      ⟨dl, -, -, -, rfl⟩⟩ := step_cases net timeout .timeout t t' hm
    · simp at he
    · simp at he
    · simp at he
    · simp at he
    · rfl

theorem sentinels_witness :
    (Read.State.mk 0 ⟨.inGet, .returned ⟨"Gateway timeout\n", 504⟩⟩).procs.reader =
      .returned ⟨"Gateway timeout\n", 504⟩ ∧
    (State.mk 0 [] (.returned ⟨"Service unavailable\n", 503⟩)).caller =
      .returned ⟨"Service unavailable\n", 503⟩ :=
  sentinels silent "u" 0 (Read.init 0) ⟨0, ⟨.inGet, .returned ⟨"Gateway timeout\n", 504⟩⟩⟩
    (init [] 0) ⟨0, [], .returned ⟨"Service unavailable\n", 503⟩⟩ (by decide) (by decide)

/-- C5 as stated fails: the bodies of the two sentinels are not `"Gateway timeout"` and
`"Service unavailable"` character for character. Against a server that never responds and
with a timeout of 0, `Read` returns the body `"Gateway timeout\n"` and `MultiRead` the body
`"Service unavailable\n"`. -/
theorem sentinels_counterexample :
    (Read.step silent "u" 0 (.act .timeout) (Read.init 0)).map (fun s => s.procs.reader) =
      some (.returned ⟨"Gateway timeout\n", 504⟩) ∧
    (⟨"Gateway timeout\n", 504⟩ : Response) ≠ ⟨"Gateway timeout", 504⟩ ∧
    (step silent 0 .timeout (init ["u"] 0)).map (fun s => s.caller) =
      some (.returned ⟨"Service unavailable\n", 503⟩) ∧
    (⟨"Service unavailable\n", 503⟩ : Response) ≠ ⟨"Service unavailable", 503⟩ := by
  decide

/-- C7 fails on the code. Two servers answer 200, after 1 and 2 nanoseconds, timeout 5. Under
the scheduler without slack the caller returns the response of `"a"`; the worker of `"b"`
then reaches `done <- response`; and whatever happens afterwards, under any scheduler, that
worker is still in `done <- response`: the goroutine never terminates. -/
theorem multiRead_leak :
    runWith (idealStep twoGood 5) leakRun (init ["a", "b"] 5) = some leaked ∧
    leaked.caller = .returned ⟨"A", 200⟩ ∧
    ∀ (acts : List Action) (s : State), runWith (step twoGood 5) acts leaked = some s →
      ∃ w : Worker, s.workers[1]? = some w ∧ w.outer = .sending ⟨"B", 200⟩ := by
  refine ⟨by decide, rfl, ?_⟩
  intro acts s h
  exact (after_return_run twoGood 5 acts leaked s ⟨"A", 200⟩ h rfl).2 1
    ⟨"b", ⟨.exited, .returned ⟨"B", 200⟩⟩, .sending ⟨"B", 200⟩⟩ ⟨"B", 200⟩ rfl rfl

/-- C8, as amended. `MultiRead(urls, timeout)` under the scheduler without slack, for every
list of urls and every behaviour of `Get` in which no call ends the process with `log.Fatalf`
by the deadline (each call returns a response, or never returns, or fails fatally only
later): while the caller waits the deadline has not passed and some event can happen; after
`timeout + 5 * len(urls) + 1` events the caller has returned; what it returns is the 503
sentinel or a response with status 200 that `Get` produced for one of the urls; and it
returns once: whatever happens afterwards, under any scheduler, its result stays. -/
theorem multiRead_returns (net : Net) (urls : List String) (timeout : Int)
    (acts : List Action) (s : State)
    (hd : ∀ u ∈ urls, ¬ DiesBy net u timeout.toNat)
    (h : runWith (idealStep net timeout) acts (init urls timeout) = some s) :
    (∀ dl, s.caller = .waiting dl →
      s.now ≤ timeout.toNat ∧ ∃ a s', idealStep net timeout a s = some s') ∧
    (timeout.toNat + 5 * urls.length + 1 ≤ acts.length → ∃ x, s.caller = .returned x) ∧
    (∀ x, s.caller = .returned x →
      (x = serviceUnavailable ∨ (x.StatusCode = 200 ∧ ∃ u ∈ urls, ∃ d, Answers net u d x)) ∧
      ∀ (more : List Action) (s2 : State),
        runWith (step net timeout) more s = some s2 → s2.caller = .returned x) := by
  obtain ⟨⟨hg, -⟩, hw, hlen⟩ := caller_returns net urls timeout acts s hd h
  refine ⟨hw, hlen, fun x hx => ⟨?_, fun more s2 h2 => ?_⟩⟩
  · rcases hg.2.2.2 x hx with hx' | hq
    · exact Or.inl hx'
    · exact Or.inr hq
  · exact (after_return_run net timeout more s s2 x h2 hx).1

theorem multiRead_returns_witness :
    runWith (idealStep silent 2) silentRun (init ["u"] 2) =
      some ⟨5, [⟨"u", ⟨.inGet, .returned gatewayTimeout⟩, .exited⟩],
        .returned serviceUnavailable⟩ ∧
    (2 : Int).toNat + 5 * ["u"].length + 1 ≤ silentRun.length ∧
    ∃ x, (State.mk 5 [⟨"u", ⟨.inGet, .returned gatewayTimeout⟩, .exited⟩]
      (.returned serviceUnavailable)).caller = .returned x :=
  ⟨by decide, by decide,
   (multiRead_returns silent ["u"] 2 silentRun
      ⟨5, [⟨"u", ⟨.inGet, .returned gatewayTimeout⟩, .exited⟩], .returned serviceUnavailable⟩
      (by
        rintro u - ⟨d, msg, hd, -, -⟩
        simp [silent] at hd)
      (by decide)).2.1 (by decide)⟩

/-- From the start against `dying`, the only event the scheduler without slack allows is
`log.Fatalf` in the call of `Get`. -/
theorem dying_first (a : Action) (t : State)
    (h : idealStep dying 1 a (init ["u"] 1) = some t) : t = dead := by
  have hq : quiet dying 1 (init ["u"] 1) = false := by decide
  cases a with
  | tick => simp [idealStep, hq] at h
  | read i ra =>
    cases i with
    | zero =>
      cases ra
      · have : idealStep dying 1 (.read 0 .getReturns) (init ["u"] 1) = some dead := by decide
        rw [this] at h
        simpa using h.symm
      · have : idealStep dying 1 (.read 0 .handoff) (init ["u"] 1) = none := by decide
        rw [this] at h
        simp at h
      · have : idealStep dying 1 (.read 0 .giveUp) (init ["u"] 1) = none := by decide
        rw [this] at h
        simp at h
      · have : idealStep dying 1 (.read 0 .timeout) (init ["u"] 1) = none := by decide
        rw [this] at h
        simp at h
    | succ n => simp [idealStep, step, init] at h
  | check i =>
    cases i with
    | zero =>
      have : idealStep dying 1 (.check 0) (init ["u"] 1) = none := by decide
      rw [this] at h
      simp at h
    | succ n => simp [idealStep, step, init] at h
  | deliver i =>
    cases i with
    | zero =>
      have : idealStep dying 1 (.deliver 0) (init ["u"] 1) = none := by decide
      rw [this] at h
      simp at h
    | succ n => simp [idealStep, step, init] at h
  | timeout =>
    have : idealStep dying 1 .timeout (init ["u"] 1) = none := by decide
    rw [this] at h
    simp at h

theorem dead_stuck (a : Action) : step dying 1 a dead = none := by
  have hc : crashed dead = true := by decide
  simp [step, hc]

/-- Against `dying`, under the scheduler without slack, the caller of `MultiRead` never
returns. -/
theorem dying_never_returns (acts : List Action) (s : State)
    (h : runWith (idealStep dying 1) acts (init ["u"] 1) = some s) :
    s.caller = .waiting 1 := by
  cases acts with
  | nil =>
    simp only [runWith, Option.some.injEq] at h
    subst h
    rfl
  | cons a rest =>
    simp only [runWith] at h
    cases hs : idealStep dying 1 a (init ["u"] 1) with
    | none => simp [hs] at h
    | some t =>
      rw [hs] at h
      have ht := dying_first a t hs
      subst ht
      cases rest with
      | nil =>
        simp only [Option.some_bind, runWith, Option.some.injEq] at h
        subst h
        rfl
      | cons b rest' =>
        have hb : idealStep dying 1 b dead = none := by
          cases b with
          | tick =>
            simp only [idealStep]
            split
            · exact dead_stuck .tick
            · rfl
          | read i ra => exact dead_stuck (.read i ra)
          | check i => exact dead_stuck (.check i)
          | deliver i => exact dead_stuck (.deliver i)
          | timeout => exact dead_stuck .timeout
        simp [runWith, hb] at h

/-- C3 as stated fails, twice. First, one url whose server fails by a response body that
cannot be read, timeout 1: no server answers 200 (`Get` returns nothing at all), yet
`MultiRead` returns no 503: `log.Fatalf` ends the process at instant 0 and no run ends with
the caller returned. Second, one url whose server answers 200 after exactly 2 nanoseconds,
timeout 2: the server does not answer before the timeout, yet at the deadline both cases of
each `select` are ready and a run returns the 200 response, not the 503 sentinel. -/
theorem multiRead_unavailable_counterexample :
    ((∀ d r, ¬ Answers dying "u" d r) ∧
      runWith (idealStep dying 1) [.read 0 .getReturns] (init ["u"] 1) = some dead ∧
      ¬ ∃ (acts : List Action) (s : State) (x : Response),
        runWith (idealStep dying 1) acts (init ["u"] 1) = some s ∧ s.caller = .returned x) ∧
    ((atDeadline "u").delay = some 2 ∧ ¬ (2 < (2 : Int).toNat) ∧
      runWith (idealStep atDeadline 2) tieRun (init ["u"] 2) =
        some ⟨2, [⟨"u", ⟨.exited, .returned ⟨"B", 200⟩⟩, .exited⟩], .returned ⟨"B", 200⟩⟩ ∧
      (⟨"B", 200⟩ : Response).StatusCode ≠ 503) := by
  refine ⟨⟨?_, by decide, ?_⟩, by decide, by decide, by decide, by decide⟩
  · rintro d r ⟨-, hr⟩
    simp [getOf, Get, dying] at hr
  · rintro ⟨acts, s, x, h, hx⟩
    rw [dying_never_returns acts s h] at hx
    simp at hx

/-- C8 as stated fails. One url whose response body cannot be read, timeout 1: the call of
`Get` runs into `log.Fatalf` at instant 0, after which nothing can happen any more with the
caller still in its `select`; and under the scheduler without slack no run at all ends with
the caller returned. -/
theorem multiRead_returns_counterexample :
    runWith (idealStep dying 1) [.read 0 .getReturns] (init ["u"] 1) = some dead ∧
    dead.caller = .waiting 1 ∧
    (∀ a : Action, step dying 1 a dead = none) ∧
    ¬ ∃ (acts : List Action) (s : State) (x : Response),
        runWith (idealStep dying 1) acts (init ["u"] 1) = some s ∧ s.caller = .returned x := by
  refine ⟨by decide, rfl, dead_stuck, ?_⟩
  rintro ⟨acts, s, x, h, hx⟩
  cases acts with
  | nil =>
    simp only [runWith, Option.some.injEq] at h
    subst h
    simp [init] at hx
  | cons a rest =>
    simp only [runWith] at h
    cases hs : idealStep dying 1 a (init ["u"] 1) with
    | none => simp [hs] at h
    | some t =>
      rw [hs] at h
      have ht := dying_first a t hs
      subst ht
      cases rest with
      | nil =>
        simp only [Option.some_bind, runWith, Option.some.injEq] at h
        subst h
        simp [dead] at hx
      | cons b rest' =>
        have hb : idealStep dying 1 b dead = none := by
          cases b with
          | tick =>
            simp only [idealStep]
            split
            · exact dead_stuck .tick
            · rfl
          | read i ra => exact dead_stuck (.read i ra)
          | check i => exact dead_stuck (.check i)
          | deliver i => exact dead_stuck (.deliver i)
          | timeout => exact dead_stuck .timeout
        simp [runWith, hb] at h

end MultiRead

end Client
